import Mathlib

/-!
Verification of aeron-go: `atomic.Buffer`, its bounds check and the bit utilities.

A shallow embedding of `aeron/atomic/buffer.go`, `aeron/atomic/boundscheck_debug.go`,
`aeron/atomic/boundscheck_release.go` and `aeron/util/bits.go`.

Modelling conventions

* Go's fixed-width integers are mathematical integers (`Int`, `Nat`); every place where the
  Go code computes in a fixed width reduces explicitly (`wrapInt32`, `wrapInt64`, `% 2 ^ 64`).
* Raw memory is a total map from addresses to bytes.  An address is a `uintptr` of a 64-bit
  platform, so pointer arithmetic is taken modulo `2 ^ 64`.  Every address is readable and
  writable: faults on unmapped or nil addresses are outside the model.
* Multi-byte loads and stores use little-endian byte order, the native order of the
  platforms the library is built for (amd64, arm64).
* The `sync/atomic` primitives are modelled by their sequential meaning; alignment
  requirements of a platform are outside the model, as the package enforces none.
* An operation that stops the process returns `Except.error`: `Halt.fatal` for the
  `log.Fatalf` of the checked bounds check, `Halt.panic` for a Go run-time panic.
* A Go method with receiver `buf *Buffer` that touches memory takes the memory as an
  argument and returns the memory it leaves behind.
-/

namespace Aeron

/-! ## Machine integers -/

/-- Two's-complement reduction of an integer to the range of `int32`. -/
def wrapInt32 (x : Int) : Int := (x + 2 ^ 31) % 2 ^ 32 - 2 ^ 31

/-- Two's-complement reduction of an integer to the range of `int64` (and of `int`). -/
def wrapInt64 (x : Int) : Int := (x + 2 ^ 63) % 2 ^ 64 - 2 ^ 63

/-- The values of Go's `int32`. -/
def IsInt32 (x : Int) : Prop := -2 ^ 31 ≤ x ∧ x < 2 ^ 31

/-- The values of Go's `int64`. -/
def IsInt64 (x : Int) : Prop := -2 ^ 63 ≤ x ∧ x < 2 ^ 63

/-- The values of Go's `int8`. -/
def IsInt8 (x : Int) : Prop := -2 ^ 7 ≤ x ∧ x < 2 ^ 7

instance (x : Int) : Decidable (IsInt32 x) := by unfold IsInt32; infer_instance

instance (x : Int) : Decidable (IsInt64 x) := by unfold IsInt64; infer_instance

instance (x : Int) : Decidable (IsInt8 x) := by unfold IsInt8; infer_instance

/-- The bit pattern of a signed integer in `w` bits, as an unsigned number
(Go's conversions `uint64(x)`, `uintptr(x)`, ... of a signed `x`). -/
def toUnsigned (w : Nat) (x : Int) : Nat := (x % 2 ^ w).toNat

/-! ## Raw memory -/

/-- One byte of memory. -/
abbrev Byte := Fin 256

/-- The low eight bits of a number, as a byte. -/
def byteOfNat (v : Nat) : Byte := ⟨v % 256, Nat.mod_lt v (by decide)⟩

/-- Raw memory: the byte held at each address. -/
abbrev Mem := Nat → Byte

/-- Memory after one byte has been written at address `a`. -/
def Mem.write (m : Mem) (a : Nat) (b : Byte) : Mem :=
  fun x => if x = a then b else m x

/-- Go's `unsafe.Add(ptr, len)`: `Pointer(uintptr(ptr) + uintptr(len))`, in 64 bits. -/
def unsafeAdd (ptr : Nat) (len : Int) : Nat := (((ptr : Int) + len) % 2 ^ 64).toNat

/-- The unsigned value of the `n` bytes at address `a`, least significant byte first:
what `*(*uintN)(a)` reads. -/
def load (m : Mem) (a : Nat) : Nat → Nat
  | 0 => 0
  | n + 1 => (m (a % 2 ^ 64)).val + 256 * load m (a + 1) n

/-- Memory after the `n` low bytes of `v` have been written at address `a`, least
significant byte first: what `*(*uintN)(a) = v` does. -/
def store (m : Mem) (a : Nat) : Nat → Nat → Mem
  | 0, _ => m
  | n + 1, v => store (m.write (a % 2 ^ 64) (byteOfNat v)) (a + 1) n (v / 256)

/-- Memory after the bytes `bs` have been written from address `a` on. -/
def writeList (m : Mem) (a : Nat) : List Byte → Mem
  | [] => m
  | b :: bs => writeList (m.write (a % 2 ^ 64) b) (a + 1) bs

/-- The `n` bytes found from address `a` on. -/
def readList (m : Mem) (a : Nat) (n : Nat) : List Byte :=
  (List.range n).map fun i => m ((a + i) % 2 ^ 64)

/-- The runtime's `memmove(to, from, n)`: the `n` source bytes are taken as they are before
the call and then written to the destination, so overlapping ranges are moved correctly. -/
def memmove (m : Mem) (dst src : Nat) (n : Nat) : Mem :=
  writeList m dst (readList m src n)

/-- Go `atomic.AddUint64(addr, delta)`: adds `delta` to `*addr` and returns the new value. -/
def atomicAddUint64 (m : Mem) (addr : Nat) (delta : Nat) : Nat × Mem :=
  let new := (load m addr 8 + delta) % 2 ^ 64
  (new, store m addr 8 new)

/-- Go `atomic.CompareAndSwapInt64(addr, old, new)`. -/
def atomicCompareAndSwapInt64 (m : Mem) (addr : Nat) (old new : Int) : Bool × Mem :=
  if wrapInt64 (load m addr 8) = old then (true, store m addr 8 (toUnsigned 64 new))
  else (false, m)

/-- Go `atomic.CompareAndSwapInt32(addr, old, new)`. -/
def atomicCompareAndSwapInt32 (m : Mem) (addr : Nat) (old new : Int) : Bool × Mem :=
  if wrapInt32 (load m addr 4) = old then (true, store m addr 4 (toUnsigned 32 new))
  else (false, m)

/-! ## Halting, slices, call arguments -/

/-- The ways an operation stops the process. -/
inductive Halt where
  /-- The `log.Fatalf` of the checked bounds check, with the values of its diagnostic. -/
  | fatal (index length capacity : Int)
  /-- A Go run-time panic. -/
  | panic (reason : String)
  deriving DecidableEq, Repr

/-- The text `log.Fatalf` prints for a bounds failure. -/
def Halt.diagnostic : Halt → String
  | .fatal index length capacity =>
      "Out of Bounds. int32: " ++ toString index ++ " + " ++ toString length ++
        " Capacity: " ++ toString capacity
  | .panic reason => reason

/-- A Go `[]byte`: the address of its first element and its length. -/
structure Slice where
  data : Nat
  len : Nat
  deriving DecidableEq, Repr

/-- The address of element `i` of a slice. -/
def Slice.addr (s : Slice) (i : Nat) : Nat := (s.data + i) % 2 ^ 64

/-- The contents of a slice, read from memory. -/
def Slice.bytes (s : Slice) (m : Mem) : List Byte := readList m s.data s.len

/-- Go's `&arr[0]`: the address of the first element, a run-time panic on an empty slice. -/
def Slice.firstElem (s : Slice) : Except Halt Nat :=
  if 0 < s.len then .ok s.data
  else .error (.panic "runtime error: index out of range [0] with length 0")

/-- Go's `unsafe.Slice(ptr, len)` at element type `byte`: a run-time panic when `len` is
negative, and when `ptr` is nil and `len` is not zero. -/
def unsafeSlice (ptr : Nat) (len : Int) : Except Halt Slice :=
  if len < 0 then .error (.panic "runtime error: unsafe.Slice: len out of range")
  else if ptr = 0 ∧ len ≠ 0 then
    .error (.panic "runtime error: unsafe.Slice: ptr is nil and len is not zero")
  else .ok { data := ptr, len := len.toNat }

/-! ## The sink `bytes.Buffer` of the standard library -/

/-- Go's `bytes.Buffer`: the backing slice `buf`, given by its address `data` (0 for the nil
slice), its length `len` and its capacity `cap`, and the read offset `off`.  The contents
are the bytes `buf[off : len(buf)]`; they live in the same memory as everything else. -/
structure BytesBuffer where
  data : Nat
  len : Nat
  cap : Nat
  off : Nat
  deriving DecidableEq, Repr

/-- The contents of a `bytes.Buffer`, read from memory. -/
def BytesBuffer.bytes (b : BytesBuffer) (m : Mem) : List Byte :=
  readList m (b.data + b.off) (b.len - b.off)

/-- The block the Go allocator hands out to a call, should the call ask for a new backing
array: its address and its size.  The runtime hands out zeroed blocks at least as long as
requested. -/
structure Allocator where
  addr : Nat
  size : Nat
  deriving DecidableEq, Repr

/-- Memory after the `n` bytes from address `a` on have been set to zero. -/
def zeroed (m : Mem) (a n : Nat) : Mem := writeList m a (List.replicate n 0)

/-- Go `Buffer.tryGrowByReslice(n)` of package `bytes`: when `n <= cap(b.buf) - len(b.buf)` the
slice is extended in place and the old length is returned. -/
def BytesBuffer.tryGrowByReslice (b : BytesBuffer) (n : Nat) : Option (Nat × BytesBuffer) :=
  if n ≤ b.cap - b.len then some (b.len, { b with len := b.len + n }) else none

/-- The reset at the start of `grow`: `if m == 0 && b.off != 0 { b.Reset() }`, where `m` is the
number of unread bytes. -/
def BytesBuffer.afterReset (b : BytesBuffer) : BytesBuffer :=
  if b.len - b.off = 0 ∧ b.off ≠ 0 then { b with len := 0, off := 0 } else b

/-- The size of the block `grow(n)` asks the allocator for, in the cases where it asks:
64 bytes (`smallBufferSize`) for a nil slice and `n <= 64`, else the length `growSlice`
computes, the larger of `len(b) + n` and `2 * cap(b)` for `b = b.buf[b.off:]` and
`n = b.off + n`. -/
def BytesBuffer.request (b : BytesBuffer) (n : Nat) : Nat :=
  let b1 := b.afterReset
  if b1.data = 0 ∧ n ≤ 64 then 64
  else max (b1.len - b1.off + (b1.off + n)) (2 * (b1.cap - b1.off))

/-- Go `Buffer.grow(n)` of package `bytes`: makes room for `n` more bytes and returns the
index where they are to be written.  In order: an empty buffer is reset; the slice is
extended in place when it has room; a nil slice with `n <= 64` gets a fresh 64-byte array;
when `n <= c/2 - m` the contents are slid down to the start of the array; otherwise
(unless the size is too large) `growSlice` copies the contents to a fresh array, the block
`al` of the allocator. -/
def BytesBuffer.grow (al : Allocator) (b : BytesBuffer) (m : Mem) (n : Nat) :
    Except Halt (Nat × BytesBuffer × Mem) :=
  let cnt := b.len - b.off
  let b1 := b.afterReset
  match b1.tryGrowByReslice n with
  | some (i, b2) => .ok (i, b2, m)
  | none =>
      if b1.data = 0 ∧ n ≤ 64 then
        .ok (0, { data := al.addr, len := n, cap := 64, off := b1.off }, zeroed m al.addr 64)
      else if (n : Int) ≤ ((b1.cap / 2 : Nat) : Int) - (cnt : Int) then
        .ok (cnt, { b1 with len := cnt + n, off := 0 },
          memmove m b1.data (b1.data + b1.off) cnt)
      else if (b1.cap : Int) > (2 ^ 63 - 1) - (b1.cap : Int) - (n : Int) then
        .error (.panic "bytes.Buffer: too large")
      else
        .ok (cnt, { data := al.addr, len := cnt + n, cap := al.size, off := 0 },
          memmove (zeroed m al.addr al.size) al.addr (b1.data + b1.off) cnt)

/-- Go `Buffer.Grow(n)` of package `bytes`: panics on a negative `n`, else grows and puts the
length back. -/
def BytesBuffer.Grow (al : Allocator) (b : BytesBuffer) (m : Mem) (n : Int) :
    Except Halt (BytesBuffer × Mem) :=
  if n < 0 then .error (.panic "bytes.Buffer.Grow: negative count")
  else
    match b.grow al m n.toNat with
    | .error e => .error e
    | .ok (i, b1, m1) => .ok ({ b1 with len := i }, m1)

/-- Go `Buffer.Write(p)` of package `bytes`: makes room for `len(p)` bytes and copies `p` to
`b.buf[m:]`. -/
def BytesBuffer.Write (al : Allocator) (b : BytesBuffer) (m : Mem) (p : Slice) :
    Except Halt (BytesBuffer × Mem) :=
  let r : Except Halt (Nat × BytesBuffer × Mem) :=
    match b.tryGrowByReslice p.len with
    | some (i, b1) => .ok (i, b1, m)
    | none => b.grow al m p.len
  match r with
  | .error e => .error e
  | .ok (i, b1, m1) =>
      .ok (b1, memmove m1 (b1.data + i) p.data (min (b1.len - i) p.len))

/-- The dynamic values `MakeBuffer` tells apart in its `...interface{}` arguments. -/
inductive Arg where
  /-- An `unsafe.Pointer`. -/
  | pointer (p : Nat)
  /-- A `uintptr`. -/
  | uintptr (p : Nat)
  /-- A `[]uint8`. -/
  | bytes (s : Slice)
  /-- An `int32`. -/
  | int32 (n : Int)
  /-- An `int`. -/
  | int (n : Int)
  /-- A value of a type that is none of the above and not convertible to `int32`. -/
  | other
  /-- The nil interface value. -/
  | nil
  deriving DecidableEq, Repr

/-- The length `MakeBuffer` reads from its second argument:
`int32(v.Convert(t).Int())` when the argument's type is convertible to `int32`. -/
def Arg.asInt32 : Arg → Option Int
  | .int32 n => some (wrapInt32 n)
  | .int n => some (wrapInt32 n)
  | .uintptr p => some (wrapInt32 p)
  | _ => none

/-! ## The bounds check -/

/-- The two builds of the package: with the build tag `debug` and without it. -/
inductive Build where
  | debug
  | release
  deriving DecidableEq, Repr

/-- Go `BoundsCheck(index, length, myLength)` of `boundscheck_debug.go` (build `debug`) and of
`boundscheck_release.go` (build `release`).  The sum `index + length` is an `int32` sum. -/
def BoundsCheck (bc : Build) (index length myLength : Int) : Except Halt Unit :=
  match bc with
  | .debug =>
      if wrapInt32 (index + length) > myLength then .error (.fatal index length myLength)
      else .ok ()
  | .release => .ok ()

/-! ## Buffer -/

/-- The struct `Buffer`: `bufferPtr unsafe.Pointer` and `length int32`. -/
structure Buffer where
  bufferPtr : Nat
  length : Int
  deriving DecidableEq, Repr

namespace Buffer

/-- Go `Wrap(buffer, length)`: re-points the receiver and returns it. -/
def Wrap (_buf : Buffer) (buffer : Nat) (length : Int) : Buffer :=
  { bufferPtr := buffer, length := length }

/-- Go `Ptr()`. -/
def Ptr (buf : Buffer) : Nat := buf.bufferPtr

/-- Go `Capacity()`. -/
def Capacity (buf : Buffer) : Int := buf.length

/-- Go `Fill(b)`: the loop `for ix := 0; ix < int(buf.length); ix++` storing `b` at
`unsafe.Add(buf.bufferPtr, ix)`. -/
def Fill (buf : Buffer) (m : Mem) (b : Nat) : Mem :=
  if buf.length = 0 then m
  else
    (List.range buf.length.toNat).foldl
      (fun acc (ix : Nat) => store acc (unsafeAdd buf.bufferPtr (ix : Int)) 1 b) m

/-- Go `GetUInt8(offset)`. -/
def GetUInt8 (bc : Build) (buf : Buffer) (m : Mem) (offset : Int) : Except Halt Nat :=
  match BoundsCheck bc offset 1 buf.length with
  | .error e => .error e
  | .ok _ => .ok (load m (unsafeAdd buf.bufferPtr offset) 1)

/-- Go `GetUInt16(offset)`. -/
def GetUInt16 (bc : Build) (buf : Buffer) (m : Mem) (offset : Int) : Except Halt Nat :=
  match BoundsCheck bc offset 2 buf.length with
  | .error e => .error e
  | .ok _ => .ok (load m (unsafeAdd buf.bufferPtr offset) 2)

/-- Go `GetInt32(offset)`. -/
def GetInt32 (bc : Build) (buf : Buffer) (m : Mem) (offset : Int) : Except Halt Int :=
  match BoundsCheck bc offset 4 buf.length with
  | .error e => .error e
  | .ok _ => .ok (wrapInt32 (load m (unsafeAdd buf.bufferPtr offset) 4))

/-- Go `GetInt64(offset)`. -/
def GetInt64 (bc : Build) (buf : Buffer) (m : Mem) (offset : Int) : Except Halt Int :=
  match BoundsCheck bc offset 8 buf.length with
  | .error e => .error e
  | .ok _ => .ok (wrapInt64 (load m (unsafeAdd buf.bufferPtr offset) 8))

/-- Go `PutUInt8(offset, value)`. -/
def PutUInt8 (bc : Build) (buf : Buffer) (m : Mem) (offset : Int) (value : Nat) :
    Except Halt Mem :=
  match BoundsCheck bc offset 1 buf.length with
  | .error e => .error e
  | .ok _ => .ok (store m (unsafeAdd buf.bufferPtr offset) 1 value)

/-- Go `PutInt8(offset, value)`. -/
def PutInt8 (bc : Build) (buf : Buffer) (m : Mem) (offset : Int) (value : Int) :
    Except Halt Mem :=
  match BoundsCheck bc offset 1 buf.length with
  | .error e => .error e
  | .ok _ => .ok (store m (unsafeAdd buf.bufferPtr offset) 1 (toUnsigned 8 value))

/-- Go `PutUInt16(offset, value)`. -/
def PutUInt16 (bc : Build) (buf : Buffer) (m : Mem) (offset : Int) (value : Nat) :
    Except Halt Mem :=
  match BoundsCheck bc offset 2 buf.length with
  | .error e => .error e
  | .ok _ => .ok (store m (unsafeAdd buf.bufferPtr offset) 2 value)

/-- Go `PutInt32(offset, value)`. -/
def PutInt32 (bc : Build) (buf : Buffer) (m : Mem) (offset : Int) (value : Int) :
    Except Halt Mem :=
  match BoundsCheck bc offset 4 buf.length with
  | .error e => .error e
  | .ok _ => .ok (store m (unsafeAdd buf.bufferPtr offset) 4 (toUnsigned 32 value))

/-- Go `PutInt64(offset, value)`. -/
def PutInt64 (bc : Build) (buf : Buffer) (m : Mem) (offset : Int) (value : Int) :
    Except Halt Mem :=
  match BoundsCheck bc offset 8 buf.length with
  | .error e => .error e
  | .ok _ => .ok (store m (unsafeAdd buf.bufferPtr offset) 8 (toUnsigned 64 value))

/-- Go `GetAndAddInt64(offset, delta)`: the result `int64(newVal) - delta` and the memory
left behind. -/
def GetAndAddInt64 (bc : Build) (buf : Buffer) (m : Mem) (offset : Int) (delta : Int) :
    Except Halt (Int × Mem) :=
  match BoundsCheck bc offset 8 buf.length with
  | .error e => .error e
  | .ok _ =>
      let uptr := unsafeAdd buf.bufferPtr offset
      let r := atomicAddUint64 m uptr (toUnsigned 64 delta)
      .ok (wrapInt64 (wrapInt64 r.1 - delta), r.2)

/-- Go `GetInt32Volatile(offset)`. -/
def GetInt32Volatile (bc : Build) (buf : Buffer) (m : Mem) (offset : Int) :
    Except Halt Int :=
  match BoundsCheck bc offset 4 buf.length with
  | .error e => .error e
  | .ok _ => .ok (wrapInt32 (load m (unsafeAdd buf.bufferPtr offset) 4))

/-- Go `GetInt64Volatile(offset)`. -/
def GetInt64Volatile (bc : Build) (buf : Buffer) (m : Mem) (offset : Int) :
    Except Halt Int :=
  match BoundsCheck bc offset 8 buf.length with
  | .error e => .error e
  | .ok _ => .ok (wrapInt64 (load m (unsafeAdd buf.bufferPtr offset) 8))

/-- Go `PutInt64Ordered(offset, value)`. -/
def PutInt64Ordered (bc : Build) (buf : Buffer) (m : Mem) (offset : Int) (value : Int) :
    Except Halt Mem :=
  match BoundsCheck bc offset 8 buf.length with
  | .error e => .error e
  | .ok _ => .ok (store m (unsafeAdd buf.bufferPtr offset) 8 (toUnsigned 64 value))

/-- Go `PutInt32Ordered(offset, value)`. -/
def PutInt32Ordered (bc : Build) (buf : Buffer) (m : Mem) (offset : Int) (value : Int) :
    Except Halt Mem :=
  match BoundsCheck bc offset 4 buf.length with
  | .error e => .error e
  | .ok _ => .ok (store m (unsafeAdd buf.bufferPtr offset) 4 (toUnsigned 32 value))

/-- Go `PutIntOrdered(offset, value)`: stores `int32(value)`. -/
def PutIntOrdered (bc : Build) (buf : Buffer) (m : Mem) (offset : Int) (value : Int) :
    Except Halt Mem :=
  match BoundsCheck bc offset 4 buf.length with
  | .error e => .error e
  | .ok _ =>
      .ok (store m (unsafeAdd buf.bufferPtr offset) 4 (toUnsigned 32 (wrapInt32 value)))

/-- Go `CompareAndSetInt64(offset, expectedValue, updateValue)`. -/
def CompareAndSetInt64 (bc : Build) (buf : Buffer) (m : Mem) (offset : Int)
    (expectedValue updateValue : Int) : Except Halt (Bool × Mem) :=
  match BoundsCheck bc offset 8 buf.length with
  | .error e => .error e
  | .ok _ =>
      .ok (atomicCompareAndSwapInt64 m (unsafeAdd buf.bufferPtr offset) expectedValue
        updateValue)

/-- Go `CompareAndSetInt32(offset, expectedValue, updateValue)`. -/
def CompareAndSetInt32 (bc : Build) (buf : Buffer) (m : Mem) (offset : Int)
    (expectedValue updateValue : Int) : Except Halt (Bool × Mem) :=
  match BoundsCheck bc offset 4 buf.length with
  | .error e => .error e
  | .ok _ =>
      .ok (atomicCompareAndSwapInt32 m (unsafeAdd buf.bufferPtr offset) expectedValue
        updateValue)

/-- Go `PutBytes(index, srcBuffer, srcOffset, length)`. -/
def PutBytes (bc : Build) (buf : Buffer) (m : Mem) (index : Int) (srcBuffer : Buffer)
    (srcOffset : Int) (length : Int) : Except Halt Mem :=
  match BoundsCheck bc index length buf.length with
  | .error e => .error e
  | .ok _ =>
      match BoundsCheck bc srcOffset length srcBuffer.length with
      | .error e => .error e
      | .ok _ =>
          .ok (memmove m (unsafeAdd buf.bufferPtr index)
            (unsafeAdd srcBuffer.bufferPtr srcOffset) (toUnsigned 64 length))

/-- Go `GetBytesArray(offset, length)`: the slice header returned; it views the buffer's
memory. -/
def GetBytesArray (bc : Build) (buf : Buffer) (offset : Int) (length : Int) :
    Except Halt Slice :=
  match BoundsCheck bc offset length buf.length with
  | .error e => .error e
  | .ok _ => unsafeSlice (unsafeAdd buf.bufferPtr offset) length

/-- Go `GetBytes(offset, b)`: the loop `for ix := 0; ix < length; ix++` storing into `b[ix]`
the byte at `unsafe.Add(buf.bufferPtr, offset+int32(ix))`, one byte after the other. -/
def GetBytes (bc : Build) (buf : Buffer) (m : Mem) (offset : Int) (b : Slice) :
    Except Halt Mem :=
  let length := b.len
  match BoundsCheck bc offset (wrapInt32 length) buf.length with
  | .error e => .error e
  | .ok _ =>
      .ok ((List.range length).foldl
        (fun acc ix =>
          acc.write (b.addr ix)
            (acc (unsafeAdd buf.bufferPtr (wrapInt32 (offset + wrapInt32 ix))))) m)

/-- Go `WriteBytes(dest, offset, length)`: `dest.Grow(int(length))`, then `dest.Write` of the
view `unsafe.Slice(...)` of the buffer.  The result is the sink and the memory left behind;
`al` is the block the allocator hands out should the sink need a new backing array. -/
def WriteBytes (bc : Build) (al : Allocator) (buf : Buffer) (m : Mem) (dest : BytesBuffer)
    (offset : Int) (length : Int) : Except Halt (BytesBuffer × Mem) :=
  match BoundsCheck bc offset length buf.length with
  | .error e => .error e
  | .ok _ =>
      match dest.Grow al m length with
      | .error e => .error e
      | .ok (dest1, m1) =>
          match unsafeSlice (unsafeAdd buf.bufferPtr offset) length with
          | .error e => .error e
          | .ok p => dest1.Write al m1 p

/-- Go `PutBytesArray(index, arr, srcOffset, length)`. -/
def PutBytesArray (bc : Build) (buf : Buffer) (m : Mem) (index : Int) (arr : Slice)
    (srcOffset : Int) (length : Int) : Except Halt Mem :=
  match BoundsCheck bc index length buf.length with
  | .error e => .error e
  | .ok _ =>
      match BoundsCheck bc srcOffset length (wrapInt32 arr.len) with
      | .error e => .error e
      | .ok _ =>
          match arr.firstElem with
          | .error e => .error e
          | .ok p =>
              .ok (memmove m (unsafeAdd buf.bufferPtr index) (unsafeAdd p srcOffset)
                (toUnsigned 64 length))

end Buffer

/-- Go `MakeBuffer(args...)`. -/
def MakeBuffer (args : List Arg) : Except Halt Buffer :=
  let fresh : Buffer := { bufferPtr := 0, length := 0 }
  match args with
  | [a] =>
      match a with
      | .pointer p => .ok (fresh.Wrap p 0)
      | .bytes arr =>
          match arr.firstElem with
          | .error e => .error e
          | .ok p => .ok (fresh.Wrap p (wrapInt32 arr.len))
      | _ => .ok (fresh.Wrap 0 0)
  | [a, l] =>
      if l = .nil then .error (.panic "runtime error: invalid memory address or nil pointer dereference")
      else
        let bufLen := (l.asInt32).getD 0
        match a with
        | .uintptr p => .ok (fresh.Wrap p bufLen)
        | .pointer p => .ok (fresh.Wrap p bufLen)
        | .bytes arr =>
            match arr.firstElem with
            | .error e => .error e
            | .ok p => .ok (fresh.Wrap p bufLen)
        | _ => .ok (fresh.Wrap 0 bufLen)
  | _ => .ok (fresh.Wrap 0 0)

/-- The byte a buffer holds at offset `i`: the byte at `unsafe.Add(buf.bufferPtr, i)`. -/
def Buffer.byteAt (buf : Buffer) (m : Mem) (i : Int) : Byte := m (unsafeAdd buf.bufferPtr i)

/-- The bytes a buffer holds at the positions `offset`, ..., `offset + n - 1`. -/
def Buffer.bytesAt (buf : Buffer) (m : Mem) (offset : Int) (n : Nat) : List Byte :=
  (List.range n).map fun (i : Nat) => buf.byteAt m (offset + (i : Int))


/-! ## Bit utilities (`aeron/util/bits.go`) -/

/-- Two's-complement reduction of an integer to the range of `int8`. -/
def wrapInt8 (x : Int) : Int := (x + 2 ^ 7) % 2 ^ 8 - 2 ^ 7

/-- Go's `x & y` on `int32` operands: the bitwise and of the two 32-bit patterns. -/
def andInt32 (x y : Int) : Int :=
  wrapInt32 ((toUnsigned 32 x &&& toUnsigned 32 y : Nat) : Int)

/-- Go's `^x` on an `int32` operand: the bitwise complement, which is `-x - 1`. -/
def notInt32 (x : Int) : Int := wrapInt32 (-x - 1)

/-- Go's `x & y` on `int64` operands: the bitwise and of the two 64-bit patterns. -/
def andInt64 (x y : Int) : Int :=
  wrapInt64 ((toUnsigned 64 x &&& toUnsigned 64 y : Nat) : Int)

/-- Go's `^x` on an `int64` operand: the bitwise complement, which is `-x - 1`. -/
def notInt64 (x : Int) : Int := wrapInt64 (-x - 1)

/-- Constant `CacheLineLength`. -/
def CacheLineLength : Int := 64

/-- Constant `SizeOfInt32`: `int32(unsafe.Sizeof(i32))`. -/
def SizeOfInt32 : Int := 4

/-- Constant `SizeOfInt64`: `int32(unsafe.Sizeof(i64))`. -/
def SizeOfInt64 : Int := 8

/-- Go `AlignInt32(value, alignment)`: `(value + (alignment - 1)) & ^(alignment - 1)`, every
step in `int32`. -/
def AlignInt32 (value alignment : Int) : Int :=
  andInt32 (wrapInt32 (value + wrapInt32 (alignment - 1)))
    (notInt32 (wrapInt32 (alignment - 1)))

/-- Go `IsPowerOfTwo(value)`: `value > 0 && ((value & (^value + 1)) == value)`, every step
in `int64`. -/
def IsPowerOfTwo (value : Int) : Bool :=
  decide (value > 0) && decide (andInt64 value (wrapInt64 (notInt64 value + 1)) = value)

/-- The digits of a number in base 16, lowercase. -/
def hexDigits (n : Nat) : String := String.mk (Nat.toDigits 16 n)

/-- Go's `fmt` verb `%02x` on an integer: lowercase hexadecimal, zero-padded to width 2; a
negative number is written as a minus sign and the digits of its magnitude, the sign
taking one of the two columns. -/
def fmt02x (v : Int) : String :=
  if v < 0 then "-" ++ hexDigits v.natAbs
  else if v < 16 then "0" ++ hexDigits v.toNat
  else hexDigits v.toNat

/-- Go `MemPrint(ptr, len)`: the loop `for i := 0; i < len; i += 1` appending
`fmt.Sprintf("%02x ", *(*int8)(ptr))` for the byte at `ptr + uintptr(i)`, read as an
`int8`. -/
def MemPrint (m : Mem) (ptr : Nat) (len : Int) : String :=
  (List.range len.toNat).foldl
    (fun output (i : Nat) =>
      output ++ (fmt02x (wrapInt8 ((m ((ptr + i) % 2 ^ 64)).val : Int)) ++ " ")) ""

/-- Go `Print(bytes)`: the text written to standard output. -/
def Print (m : Mem) (bytes : Slice) : String :=
  (List.range bytes.len).foldl
    (fun out (i : Nat) =>
      let out1 := if 0 < i ∧ i % 16 = 0 ∧ i % 32 ≠ 0 then out ++ " :  " else out
      let out2 := if 0 < i ∧ i % 32 = 0 then out1 ++ "\n" else out1
      out2 ++ (fmt02x ((m (bytes.addr i)).val : Int) ++ " ")) "" ++ "\n"

/-! ## Arithmetic of the fixed-width reductions -/

theorem wrapInt32_of_isInt32 {x : Int} (h : IsInt32 x) : wrapInt32 x = x := by
  unfold IsInt32 at h
  unfold wrapInt32
  omega

theorem wrapInt64_of_isInt64 {x : Int} (h : IsInt64 x) : wrapInt64 x = x := by
  unfold IsInt64 at h
  unfold wrapInt64
  omega

theorem wrapInt32_le_self {x : Int} (h : -2 ^ 31 ≤ x) : wrapInt32 x ≤ x := by
  unfold wrapInt32
  omega

/-- In both builds the bounds check lets an access through that starts at or after the
base and ends within the capacity. -/
theorem boundsCheck_ok_of_inRange (bc : Build) (index length myLength : Int)
    (h0 : -2 ^ 31 ≤ index + length) (h1 : index + length ≤ myLength) :
    BoundsCheck bc index length myLength = .ok () := by
  cases bc
  · have := wrapInt32_le_self h0
    simp only [BoundsCheck]
    rw [if_neg (by omega)]
  · rfl

/-! ## Memory lemmas -/

theorem Mem.write_same (m : Mem) (a : Nat) (b : Byte) : m.write a b a = b := by
  simp [Mem.write]

theorem Mem.write_other (m : Mem) {a x : Nat} (b : Byte) (h : x ≠ a) :
    m.write a b x = m x := by
  simp [Mem.write, h]

/-- A store of `n` bytes at `a` leaves every address outside the `n` addresses from `a`
on as it was. -/
theorem store_frame (n : Nat) : ∀ (m : Mem) (a v x : Nat),
    (∀ i, i < n → x ≠ (a + i) % 2 ^ 64) → store m a n v x = m x := by
  induction n with
  | zero => intro m a v x _; rfl
  | succ n ih =>
      intro m a v x h
      simp only [store]
      rw [ih]
      · apply Mem.write_other
        simpa using h 0 (Nat.succ_pos n)
      · intro i hi
        have := h (i + 1) (by omega)
        have e : a + 1 + i = a + (i + 1) := by omega
        rw [e]
        exact this

/-- A load sees only the `n` addresses from `a` on. -/
theorem load_congr (n : Nat) : ∀ (m₁ m₂ : Mem) (a : Nat),
    (∀ i, i < n → m₁ ((a + i) % 2 ^ 64) = m₂ ((a + i) % 2 ^ 64)) →
    load m₁ a n = load m₂ a n := by
  induction n with
  | zero => intro m₁ m₂ a _; rfl
  | succ n ih =>
      intro m₁ m₂ a h
      simp only [load]
      have h0 := h 0 (Nat.succ_pos n)
      simp only [Nat.add_zero] at h0
      rw [h0, ih m₁ m₂ (a + 1)]
      intro i hi
      have := h (i + 1) (by omega)
      have e : a + 1 + i = a + (i + 1) := by omega
      rw [e]
      exact this

theorem load_lt (n : Nat) : ∀ (m : Mem) (a : Nat), load m a n < 256 ^ n := by
  induction n with
  | zero => intro m a; simp [load]
  | succ n ih =>
      intro m a
      simp only [load]
      have h1 := ih m (a + 1)
      have h2 := (m (a % 2 ^ 64)).isLt
      rw [Nat.pow_succ]
      omega

/-- Reading back the `n` bytes just stored gives the `n` low bytes of the value. -/
theorem load_store (n : Nat) : ∀ (m : Mem) (a v : Nat), n ≤ 2 ^ 64 →
    load (store m a n v) a n = v % 256 ^ n := by
  induction n with
  | zero => intro m a v _; simp [load, Nat.mod_one]
  | succ n ih =>
      intro m a v hn
      simp only [load, store]
      rw [ih _ (a + 1) (v / 256) (by omega)]
      rw [store_frame n _ (a + 1) (v / 256) (a % 2 ^ 64) (by intro i hi; omega)]
      rw [Mem.write_same, Nat.pow_succ', Nat.mod_mul]
      rfl


/-- C1. Round trip of the plain typed accessors, in both builds: at every offset `o` with
`0 ≤ o` and `o + W ≤ capacity`, aligned or not, `GetUInt8`, `GetUInt16`, `GetInt32`,
`GetInt64` after the matching `Put` of a value `v` of that type return `v`, and `GetUInt8`
after `PutInt8` of `v` returns the byte with the bit pattern of `v`. -/
theorem roundtrip_plain_accessors (bc : Build) (buf : Buffer) (m : Mem) (o : Int)
    (ho : 0 ≤ o) :
    (∀ v : Nat, v < 2 ^ 8 → o + 1 ≤ buf.length →
      (buf.PutUInt8 bc m o v).bind (fun m' => buf.GetUInt8 bc m' o) = .ok v) ∧
    (∀ v : Nat, v < 2 ^ 16 → o + 2 ≤ buf.length →
      (buf.PutUInt16 bc m o v).bind (fun m' => buf.GetUInt16 bc m' o) = .ok v) ∧
    (∀ v : Int, IsInt32 v → o + 4 ≤ buf.length →
      (buf.PutInt32 bc m o v).bind (fun m' => buf.GetInt32 bc m' o) = .ok v) ∧
    (∀ v : Int, IsInt64 v → o + 8 ≤ buf.length →
      (buf.PutInt64 bc m o v).bind (fun m' => buf.GetInt64 bc m' o) = .ok v) ∧
    (∀ v : Int, IsInt8 v → o + 1 ≤ buf.length →
      (buf.PutInt8 bc m o v).bind (fun m' => buf.GetUInt8 bc m' o) =
        .ok (toUnsigned 8 v)) := by
  refine ⟨?_, ?_, ?_, ?_, ?_⟩
  · intro v hv hc
    have hb := boundsCheck_ok_of_inRange bc o 1 buf.length (by omega) hc
    simp only [Buffer.PutUInt8, Buffer.GetUInt8, hb, Except.bind]
    rw [load_store 1 _ _ _ (by decide)]
    refine congrArg Except.ok ?_
    omega
  · intro v hv hc
    have hb := boundsCheck_ok_of_inRange bc o 2 buf.length (by omega) hc
    simp only [Buffer.PutUInt16, Buffer.GetUInt16, hb, Except.bind]
    rw [load_store 2 _ _ _ (by decide)]
    refine congrArg Except.ok ?_
    omega
  · intro v hv hc
    have hb := boundsCheck_ok_of_inRange bc o 4 buf.length (by omega) hc
    simp only [Buffer.PutInt32, Buffer.GetInt32, hb, Except.bind]
    rw [load_store 4 _ _ _ (by decide)]
    refine congrArg Except.ok ?_
    unfold IsInt32 at hv
    unfold wrapInt32 toUnsigned
    simp only [Nat.reducePow, Int.reducePow] at *
    omega
  · intro v hv hc
    have hb := boundsCheck_ok_of_inRange bc o 8 buf.length (by omega) hc
    simp only [Buffer.PutInt64, Buffer.GetInt64, hb, Except.bind]
    rw [load_store 8 _ _ _ (by decide)]
    refine congrArg Except.ok ?_
    unfold IsInt64 at hv
    unfold wrapInt64 toUnsigned
    simp only [Nat.reducePow, Int.reducePow] at *
    omega
  · intro v hv hc
    have hb := boundsCheck_ok_of_inRange bc o 1 buf.length (by omega) hc
    simp only [Buffer.PutInt8, Buffer.GetUInt8, hb, Except.bind]
    rw [load_store 1 _ _ _ (by decide)]
    refine congrArg Except.ok ?_
    unfold toUnsigned
    omega


/-- Witness for C1: the round trips at offset 3 of a 16-byte buffer, checked build, with
the extreme values of each type. -/
theorem roundtrip_plain_accessors_witness :
    ((Buffer.mk 4096 16).PutUInt8 .debug (fun _ => 0) 3 200).bind
        (fun m' => (Buffer.mk 4096 16).GetUInt8 .debug m' 3) = .ok 200 ∧
    ((Buffer.mk 4096 16).PutUInt16 .debug (fun _ => 0) 3 65535).bind
        (fun m' => (Buffer.mk 4096 16).GetUInt16 .debug m' 3) = .ok 65535 ∧
    ((Buffer.mk 4096 16).PutInt32 .debug (fun _ => 0) 3 (-2147483648)).bind
        (fun m' => (Buffer.mk 4096 16).GetInt32 .debug m' 3) = .ok (-2147483648) ∧
    ((Buffer.mk 4096 16).PutInt64 .debug (fun _ => 0) 3 9223372036854775807).bind
        (fun m' => (Buffer.mk 4096 16).GetInt64 .debug m' 3) = .ok 9223372036854775807 ∧
    ((Buffer.mk 4096 16).PutInt8 .debug (fun _ => 0) 3 (-1)).bind
        (fun m' => (Buffer.mk 4096 16).GetUInt8 .debug m' 3) = .ok 255 :=
  have h := roundtrip_plain_accessors .debug (Buffer.mk 4096 16) (fun _ => 0) 3 (by decide)
  ⟨h.1 200 (by decide) (by decide),
   h.2.1 65535 (by decide) (by decide),
   h.2.2.1 (-2147483648) (by decide) (by decide),
   h.2.2.2.1 9223372036854775807 (by decide) (by decide),
   h.2.2.2.2 (-1) (by decide) (by decide)⟩


/-! ## The checked bounds check -/

/-- The checked build stops exactly when the 32-bit sum exceeds the capacity. -/
theorem boundsCheck_debug_eq (index length myLength : Int) :
    BoundsCheck .debug index length myLength =
      if wrapInt32 (index + length) > myLength then .error (.fatal index length myLength)
      else .ok () := rfl

/-- When `index + length` fits in an `int32` and exceeds the capacity, the checked build
stops with the diagnostic of that index, length and capacity. -/
theorem boundsCheck_debug_fatal (index length myLength : Int)
    (hfit : IsInt32 (index + length)) (hgt : index + length > myLength) :
    BoundsCheck .debug index length myLength = .error (.fatal index length myLength) := by
  rw [boundsCheck_debug_eq, wrapInt32_of_isInt32 hfit, if_pos hgt]

/-- C2 (the code at the failing input). In the checked build, with capacity 16 and offset
`2147483647`, `offset + width` exceeds the capacity for every width, yet the `int32` sum
wraps to a negative number, `BoundsCheck` does not stop, and operations of every kind
go on to access memory. -/
theorem boundsCheck_passes_on_int32_overflow :
    (2147483647 : Int) + 2 > 16 ∧
    BoundsCheck .debug 2147483647 2 16 = .ok () ∧
    (Buffer.mk 4096 16).GetUInt16 .debug (fun _ => 7) 2147483647 = .ok 1799 ∧
    ((Buffer.mk 4096 16).PutInt32 .debug (fun _ => 0) 2147483647 (-1)).map
        (fun m' => m' (4096 + 2147483647)) = .ok 255 ∧
    (Buffer.mk 4096 16).GetInt64Volatile .debug (fun _ => 0) 2147483647 = .ok 0 ∧
    ((Buffer.mk 4096 16).PutInt32Ordered .debug (fun _ => 0) 2147483647 1).isOk = true ∧
    ((Buffer.mk 4096 16).CompareAndSetInt32 .debug (fun _ => 0) 2147483647 0 1).map
        Prod.fst = .ok true ∧
    ((Buffer.mk 4096 16).GetAndAddInt64 .debug (fun _ => 0) 2147483647 5).map
        Prod.fst = .ok 0 ∧
    (Buffer.mk 4096 16).GetBytesArray .debug 2147483647 1 =
        .ok { data := 4096 + 2147483647, len := 1 } := by
  refine ⟨by decide, rfl, rfl, rfl, rfl, rfl, rfl, rfl, rfl⟩

/-- C3 (the code at the failing input). In the checked build, with capacity 8, an access of
width 4 at offset `-4` passes `BoundsCheck`: `GetInt32(-4)` returns the four bytes below the
base and `PutInt32(-4, v)` overwrites them; a negative length passes the check as well. -/
theorem boundsCheck_passes_on_negative_offset :
    BoundsCheck .debug (-4) 4 8 = .ok () ∧
    (Buffer.mk 4096 8).GetInt32 .debug (fun a => if a < 4096 then 1 else 0) (-4) =
        .ok 16843009 ∧
    ((Buffer.mk 4096 8).PutInt32 .debug (fun _ => 0) (-4) (-1)).map
        (fun m' => (m' 4092, m' 4093, m' 4094, m' 4095)) = .ok (255, 255, 255, 255) ∧
    (Buffer.mk 4096 8).GetBytesArray .debug (-4) 4 = .ok { data := 4092, len := 4 } ∧
    BoundsCheck .debug 2 (-1) 8 = .ok () := by
  refine ⟨rfl, rfl, rfl, rfl, rfl⟩


/-! ## Addresses of buffer positions -/

theorem unsafeAdd_add (p : Nat) (o : Int) (i : Nat) :
    (unsafeAdd p o + i) % 2 ^ 64 = unsafeAdd p (o + i) := by
  unfold unsafeAdd
  simp only [Nat.reducePow, Int.reducePow]
  omega

/-- Two positions less than `2 ^ 64` apart lie at different addresses. -/
theorem unsafeAdd_ne (p : Nat) (j k : Int) (hne : j ≠ k) (h1 : j - k < 2 ^ 64)
    (h2 : k - j < 2 ^ 64) : unsafeAdd p j ≠ unsafeAdd p k := by
  unfold unsafeAdd
  simp only [Nat.reducePow, Int.reducePow] at *
  omega

/-- A store of `n` bytes at offset `o` leaves the buffer's byte at every position outside
`[o, o + n)` as it was. -/
theorem byteAt_store_outside (buf : Buffer) (m : Mem) (o j : Int) (n v : Nat)
    (ho : IsInt32 o) (hj : IsInt32 j) (hn : n < 2 ^ 32) (hout : j < o ∨ o + n ≤ j) :
    buf.byteAt (store m (unsafeAdd buf.bufferPtr o) n v) j = buf.byteAt m j := by
  unfold Buffer.byteAt
  apply store_frame
  intro i hi
  rw [unsafeAdd_add]
  unfold IsInt32 at ho hj
  apply unsafeAdd_ne
  · omega
  · simp only [Nat.reducePow, Int.reducePow] at *; omega
  · simp only [Nat.reducePow, Int.reducePow] at *; omega

theorem load8_lt (m : Mem) (a : Nat) : load m a 8 < 2 ^ 64 := by
  have := load_lt 8 m a
  simpa using this

theorem load4_lt (m : Mem) (a : Nat) : load m a 4 < 2 ^ 32 := by
  have := load_lt 4 m a
  simpa using this


/-! ## Fetch-and-add -/

theorem fetch_add_arith (L : Nat) (delta : Int) (hl : L < 2 ^ 64) (hd : IsInt64 delta) :
    wrapInt64 (wrapInt64 ((((L + toUnsigned 64 delta) % 2 ^ 64 : Nat) : Int)) - delta) =
      wrapInt64 L ∧
    wrapInt64 ((((L + toUnsigned 64 delta) % 2 ^ 64 % 256 ^ 8 : Nat) : Int)) =
      wrapInt64 (wrapInt64 L + delta) := by
  unfold IsInt64 at hd
  unfold wrapInt64 toUnsigned
  simp only [Nat.reducePow, Int.reducePow] at *
  have hdu : (((delta % 18446744073709551616).toNat : Nat) : Int) = delta ∨
      (((delta % 18446744073709551616).toNat : Nat) : Int) = delta + 18446744073709551616 := by
    omega
  have hdu2 : (delta % 18446744073709551616).toNat < 18446744073709551616 := by omega
  generalize (delta % 18446744073709551616).toNat = du at *
  have hs : (((L + du) % 18446744073709551616 % 18446744073709551616 : Nat) : Int) =
      (L + du : Int) ∨ (((L + du) % 18446744073709551616 % 18446744073709551616 : Nat) : Int) =
      (L + du : Int) - 18446744073709551616 := by omega
  constructor
  · omega
  · rcases hdu with h | h <;> rcases hs with hs | hs <;> rw [hs] <;> omega

/-- C4. `GetAndAddInt64` is fetch-and-add, in both builds: at an `int32` offset `o` with
`o + 8 ≤ capacity`, when the buffer holds the `int64` value `old` at `o`, the call with an
`int64` `delta` returns `old`, also when `old + delta` wraps around, and a `GetInt64(o)`
after it returns `old + delta` reduced to `int64`. -/
theorem getAndAddInt64_fetch_and_add (bc : Build) (buf : Buffer) (m : Mem)
    (o old delta : Int) (ho : IsInt32 o) (hc : o + 8 ≤ buf.length) (hd : IsInt64 delta)
    (hold : buf.GetInt64 bc m o = .ok old) :
    (buf.GetAndAddInt64 bc m o delta).map Prod.fst = .ok old ∧
    (buf.GetAndAddInt64 bc m o delta).bind (fun r => buf.GetInt64 bc r.2 o) =
      .ok (wrapInt64 (old + delta)) := by
  have hb := boundsCheck_ok_of_inRange bc o 8 buf.length (by unfold IsInt32 at ho; omega) hc
  simp only [Buffer.GetInt64, hb, Except.ok.injEq] at hold
  have hl := load8_lt m (unsafeAdd buf.bufferPtr o)
  have ha := fetch_add_arith _ delta hl hd
  simp only [Buffer.GetAndAddInt64, Buffer.GetInt64, hb, Except.map, Except.bind,
    atomicAddUint64]
  rw [load_store 8 _ _ _ (by decide), ← hold, ha.1, ha.2]
  exact ⟨rfl, rfl⟩

/-- Witness for C4: with 10 stored at offset 0, `GetAndAddInt64(0, 5)` returns 10 and the
next read gives 15. -/
theorem getAndAddInt64_fetch_and_add_witness :
    ((Buffer.mk 4096 16).GetAndAddInt64 .debug (store (fun _ => 0) 4096 8 10) 0 5).map
        Prod.fst = .ok 10 ∧
    ((Buffer.mk 4096 16).GetAndAddInt64 .debug (store (fun _ => 0) 4096 8 10) 0 5).bind
        (fun r => (Buffer.mk 4096 16).GetInt64 .debug r.2 0) = .ok 15 :=
  getAndAddInt64_fetch_and_add .debug (Buffer.mk 4096 16) (store (fun _ => 0) 4096 8 10)
    0 10 5 (by decide) (by decide) (by decide) rfl


/-! ## Compare-and-set -/

theorem wrapInt32_load_store (m : Mem) (a : Nat) (u : Int) (hu : IsInt32 u) :
    wrapInt32 (load (store m a 4 (toUnsigned 32 u)) a 4) = u := by
  rw [load_store 4 _ _ _ (by decide)]
  unfold IsInt32 at hu
  unfold wrapInt32 toUnsigned
  simp only [Nat.reducePow, Int.reducePow] at *
  omega

theorem wrapInt64_load_store (m : Mem) (a : Nat) (u : Int) (hu : IsInt64 u) :
    wrapInt64 (load (store m a 8 (toUnsigned 64 u)) a 8) = u := by
  rw [load_store 8 _ _ _ (by decide)]
  unfold IsInt64 at hu
  unfold wrapInt64 toUnsigned
  simp only [Nat.reducePow, Int.reducePow] at *
  omega

/-- C6. Compare-and-set, in both builds, at an `int32` offset `o` with `o + W ≤ capacity`
and an update value `u` of the type: when the value stored at `o` equals `e` the call
returns true, the value at `o` becomes `u`, the buffer's byte at every position outside
`[o, o + W)` is as before, and so is the byte at every address other than the `W` addresses
of the access; when the stored value differs from `e` the call returns false
without an error and leaves the whole memory as it was.  So it returns true exactly when
the stored value equals `e`. -/
theorem compareAndSet_characterisation (bc : Build) (buf : Buffer) (m : Mem)
    (o e u : Int) (ho : IsInt32 o) :
    (o + 4 ≤ buf.length → IsInt32 u →
      (buf.GetInt32 bc m o = .ok e →
        (buf.CompareAndSetInt32 bc m o e u).map Prod.fst = .ok true ∧
        (buf.CompareAndSetInt32 bc m o e u).bind (fun r => buf.GetInt32 bc r.2 o) = .ok u ∧
        (∀ j, IsInt32 j → j < o ∨ o + 4 ≤ j →
          (buf.CompareAndSetInt32 bc m o e u).map (fun r => buf.byteAt r.2 j) =
            .ok (buf.byteAt m j)) ∧
        ∀ x : Nat, (∀ i : Nat, i < 4 → x ≠ unsafeAdd buf.bufferPtr (o + i)) →
          (buf.CompareAndSetInt32 bc m o e u).map (fun r => r.2 x) = .ok (m x)) ∧
      (buf.GetInt32 bc m o ≠ .ok e →
        buf.CompareAndSetInt32 bc m o e u = .ok (false, m))) ∧
    (o + 8 ≤ buf.length → IsInt64 u →
      (buf.GetInt64 bc m o = .ok e →
        (buf.CompareAndSetInt64 bc m o e u).map Prod.fst = .ok true ∧
        (buf.CompareAndSetInt64 bc m o e u).bind (fun r => buf.GetInt64 bc r.2 o) = .ok u ∧
        (∀ j, IsInt32 j → j < o ∨ o + 8 ≤ j →
          (buf.CompareAndSetInt64 bc m o e u).map (fun r => buf.byteAt r.2 j) =
            .ok (buf.byteAt m j)) ∧
        ∀ x : Nat, (∀ i : Nat, i < 8 → x ≠ unsafeAdd buf.bufferPtr (o + i)) →
          (buf.CompareAndSetInt64 bc m o e u).map (fun r => r.2 x) = .ok (m x)) ∧
      (buf.GetInt64 bc m o ≠ .ok e →
        buf.CompareAndSetInt64 bc m o e u = .ok (false, m))) := by
  have hlo : -2 ^ 31 ≤ o := ho.1
  constructor
  · intro hc hu
    have hb := boundsCheck_ok_of_inRange bc o 4 buf.length (by omega) hc
    constructor
    · intro hold
      simp only [Buffer.GetInt32, hb, Except.ok.injEq] at hold
      simp only [Buffer.CompareAndSetInt32, Buffer.GetInt32, hb, Except.map, Except.bind,
        atomicCompareAndSwapInt32, hold, if_true, wrapInt32_load_store _ _ _ hu]
      refine ⟨trivial, trivial, ?_, ?_⟩
      · intro j hj hout
        rw [byteAt_store_outside buf m o j 4 _ ho hj (by decide) (by simpa using hout)]
      · intro x hx
        rw [store_frame 4 _ _ _ x (fun i hi => by rw [unsafeAdd_add]; exact hx i hi)]
    · intro hne
      simp only [Buffer.GetInt32, hb, ne_eq, Except.ok.injEq] at hne
      simp only [Buffer.CompareAndSetInt32, hb, atomicCompareAndSwapInt32, hne, if_false]
  · intro hc hu
    have hb := boundsCheck_ok_of_inRange bc o 8 buf.length (by omega) hc
    constructor
    · intro hold
      simp only [Buffer.GetInt64, hb, Except.ok.injEq] at hold
      simp only [Buffer.CompareAndSetInt64, Buffer.GetInt64, hb, Except.map, Except.bind,
        atomicCompareAndSwapInt64, hold, if_true, wrapInt64_load_store _ _ _ hu]
      refine ⟨trivial, trivial, ?_, ?_⟩
      · intro j hj hout
        rw [byteAt_store_outside buf m o j 8 _ ho hj (by decide) (by simpa using hout)]
      · intro x hx
        rw [store_frame 8 _ _ _ x (fun i hi => by rw [unsafeAdd_add]; exact hx i hi)]
    · intro hne
      simp only [Buffer.GetInt64, hb, ne_eq, Except.ok.injEq] at hne
      simp only [Buffer.CompareAndSetInt64, hb, atomicCompareAndSwapInt64, hne, if_false]


/-- Witness for C6: a 16-byte buffer holding 7 at offset 0; expected value 7 succeeds and
stores 9, expected value 8 fails and changes nothing. -/
theorem compareAndSet_characterisation_witness :
    (((Buffer.mk 4096 16).CompareAndSetInt32 .debug (store (fun _ => 0) 4096 8 7) 0 7 9).map
        Prod.fst = .ok true ∧
      ((Buffer.mk 4096 16).CompareAndSetInt32 .debug (store (fun _ => 0) 4096 8 7) 0 7 9).bind
        (fun r => (Buffer.mk 4096 16).GetInt32 .debug r.2 0) = .ok 9 ∧
      ((Buffer.mk 4096 16).CompareAndSetInt32 .debug (store (fun _ => 0) 4096 8 7) 0 7 9).map
        (fun r => (Buffer.mk 4096 16).byteAt r.2 4) =
          .ok ((Buffer.mk 4096 16).byteAt (store (fun _ => 0) 4096 8 7) 4)) ∧
    (Buffer.mk 4096 16).CompareAndSetInt32 .debug (store (fun _ => 0) 4096 8 7) 0 8 9 =
        .ok (false, store (fun _ => 0) 4096 8 7) ∧
    (((Buffer.mk 4096 16).CompareAndSetInt64 .debug (store (fun _ => 0) 4096 8 7) 0 7 9).map
        Prod.fst = .ok true ∧
      ((Buffer.mk 4096 16).CompareAndSetInt64 .debug (store (fun _ => 0) 4096 8 7) 0 7 9).bind
        (fun r => (Buffer.mk 4096 16).GetInt64 .debug r.2 0) = .ok 9 ∧
      ((Buffer.mk 4096 16).CompareAndSetInt64 .debug (store (fun _ => 0) 4096 8 7) 0 7 9).map
        (fun r => (Buffer.mk 4096 16).byteAt r.2 8) =
          .ok ((Buffer.mk 4096 16).byteAt (store (fun _ => 0) 4096 8 7) 8)) ∧
    (Buffer.mk 4096 16).CompareAndSetInt64 .debug (store (fun _ => 0) 4096 8 7) 0 8 9 =
        .ok (false, store (fun _ => 0) 4096 8 7) :=
  have h7 := compareAndSet_characterisation .debug (Buffer.mk 4096 16)
    (store (fun _ => 0) 4096 8 7) 0 7 9 (by decide)
  have h8 := compareAndSet_characterisation .debug (Buffer.mk 4096 16)
    (store (fun _ => 0) 4096 8 7) 0 8 9 (by decide)
  have a32 := (h7.1 (by decide) (by decide)).1 rfl
  have a64 := (h7.2 (by decide) (by decide)).1 rfl
  ⟨⟨a32.1, a32.2.1, a32.2.2.1 4 (by decide) (by decide)⟩,
   (h8.1 (by decide) (by decide)).2 (fun h => absurd (Except.ok.inj h) (by decide)),
   ⟨a64.1, a64.2.1, a64.2.2.1 8 (by decide) (by decide)⟩,
   (h8.2 (by decide) (by decide)).2 (fun h => absurd (Except.ok.inj h) (by decide))⟩


theorem compareAndSetInt32_hit (bc : Build) (buf : Buffer) (m : Mem) (o e u : Int)
    (hb : BoundsCheck bc o 4 buf.length = .ok ())
    (h : wrapInt32 (load m (unsafeAdd buf.bufferPtr o) 4) = e) :
    buf.CompareAndSetInt32 bc m o e u =
      .ok (true, store m (unsafeAdd buf.bufferPtr o) 4 (toUnsigned 32 u)) := by
  simp only [Buffer.CompareAndSetInt32, hb, atomicCompareAndSwapInt32, h, if_true]

theorem compareAndSetInt32_miss (bc : Build) (buf : Buffer) (m : Mem) (o e u : Int)
    (hb : BoundsCheck bc o 4 buf.length = .ok ())
    (h : wrapInt32 (load m (unsafeAdd buf.bufferPtr o) 4) ≠ e) :
    buf.CompareAndSetInt32 bc m o e u = .ok (false, m) := by
  simp only [Buffer.CompareAndSetInt32, hb, atomicCompareAndSwapInt32, h, if_false]

theorem compareAndSetInt64_hit (bc : Build) (buf : Buffer) (m : Mem) (o e u : Int)
    (hb : BoundsCheck bc o 8 buf.length = .ok ())
    (h : wrapInt64 (load m (unsafeAdd buf.bufferPtr o) 8) = e) :
    buf.CompareAndSetInt64 bc m o e u =
      .ok (true, store m (unsafeAdd buf.bufferPtr o) 8 (toUnsigned 64 u)) := by
  simp only [Buffer.CompareAndSetInt64, hb, atomicCompareAndSwapInt64, h, if_true]

theorem compareAndSetInt64_miss (bc : Build) (buf : Buffer) (m : Mem) (o e u : Int)
    (hb : BoundsCheck bc o 8 buf.length = .ok ())
    (h : wrapInt64 (load m (unsafeAdd buf.bufferPtr o) 8) ≠ e) :
    buf.CompareAndSetInt64 bc m o e u = .ok (false, m) := by
  simp only [Buffer.CompareAndSetInt64, hb, atomicCompareAndSwapInt64, h, if_false]

/-- C5 (counterexample). With `X = Y = 5`: a 16-byte buffer holds 5 at offset 0, the first
`CompareAndSetInt32(0, 5, 5)` returns true, and the second identical call returns true
again, not false; the same with `CompareAndSetInt64`. -/
theorem compareAndSet_second_call_true_when_equal :
    (Buffer.mk 4096 16).GetInt32 .debug (store (fun _ => 0) 4096 8 5) 0 = .ok 5 ∧
    ((Buffer.mk 4096 16).CompareAndSetInt32 .debug (store (fun _ => 0) 4096 8 5) 0 5 5).map
        Prod.fst = .ok true ∧
    ((Buffer.mk 4096 16).CompareAndSetInt32 .debug (store (fun _ => 0) 4096 8 5) 0 5 5).bind
        (fun r => ((Buffer.mk 4096 16).CompareAndSetInt32 .debug r.2 0 5 5).map Prod.fst) =
      .ok true ∧
    ((Buffer.mk 4096 16).CompareAndSetInt32 .debug (store (fun _ => 0) 4096 8 5) 0 5 5).bind
        (fun r => ((Buffer.mk 4096 16).CompareAndSetInt32 .debug r.2 0 5 5).map Prod.fst) ≠
      .ok false ∧
    (Buffer.mk 4096 16).GetInt64 .debug (store (fun _ => 0) 4096 8 5) 0 = .ok 5 ∧
    ((Buffer.mk 4096 16).CompareAndSetInt64 .debug (store (fun _ => 0) 4096 8 5) 0 5 5).bind
        (fun r => ((Buffer.mk 4096 16).CompareAndSetInt64 .debug r.2 0 5 5).map Prod.fst) ≠
      .ok false := by
  refine ⟨rfl, rfl, rfl, ?_, rfl, ?_⟩
  · intro h
    exact absurd (Except.ok.inj h) (by decide)
  · intro h
    exact absurd (Except.ok.inj h) (by decide)

/-- C5 (amended). Compare-and-set twice, in both builds, at an `int32` offset `o` with
`o + W ≤ capacity`, for `CompareAndSetInt32` and `CompareAndSetInt64`: when the buffer holds
`X` at `o` and `Y` is a value of the type, `CompareAndSet(o, X, Y)` returns true and leaves
`Y` at `o`; a second identical call returns false when `X ≠ Y` and true when `X = Y`, and
leaves `Y` at `o` in both cases. -/
theorem compareAndSet_twice (bc : Build) (buf : Buffer) (m : Mem) (o X Y : Int)
    (ho : IsInt32 o) :
    (o + 4 ≤ buf.length → IsInt32 Y → buf.GetInt32 bc m o = .ok X →
      (buf.CompareAndSetInt32 bc m o X Y).map Prod.fst = .ok true ∧
      (buf.CompareAndSetInt32 bc m o X Y).bind (fun r => buf.GetInt32 bc r.2 o) = .ok Y ∧
      (buf.CompareAndSetInt32 bc m o X Y).bind
        (fun r => (buf.CompareAndSetInt32 bc r.2 o X Y).map Prod.fst) =
          .ok (decide (X = Y)) ∧
      (buf.CompareAndSetInt32 bc m o X Y).bind
        (fun r => (buf.CompareAndSetInt32 bc r.2 o X Y).bind
          (fun r' => buf.GetInt32 bc r'.2 o)) = .ok Y) ∧
    (o + 8 ≤ buf.length → IsInt64 Y → buf.GetInt64 bc m o = .ok X →
      (buf.CompareAndSetInt64 bc m o X Y).map Prod.fst = .ok true ∧
      (buf.CompareAndSetInt64 bc m o X Y).bind (fun r => buf.GetInt64 bc r.2 o) = .ok Y ∧
      (buf.CompareAndSetInt64 bc m o X Y).bind
        (fun r => (buf.CompareAndSetInt64 bc r.2 o X Y).map Prod.fst) =
          .ok (decide (X = Y)) ∧
      (buf.CompareAndSetInt64 bc m o X Y).bind
        (fun r => (buf.CompareAndSetInt64 bc r.2 o X Y).bind
          (fun r' => buf.GetInt64 bc r'.2 o)) = .ok Y) := by
  have hlo : -2 ^ 31 ≤ o := ho.1
  constructor
  · intro hc hY hold
    have hb := boundsCheck_ok_of_inRange bc o 4 buf.length (by omega) hc
    simp only [Buffer.GetInt32, hb, Except.ok.injEq] at hold
    have hY' := wrapInt32_load_store m (unsafeAdd buf.bufferPtr o) Y hY
    rw [compareAndSetInt32_hit bc buf m o X Y hb hold]
    simp only [Except.map, Except.bind, Buffer.GetInt32, hb, hY']
    by_cases hxy : X = Y
    · have h2 : wrapInt32 (load (store m (unsafeAdd buf.bufferPtr o) 4 (toUnsigned 32 Y))
          (unsafeAdd buf.bufferPtr o) 4) = X := by rw [hY', hxy]
      rw [compareAndSetInt32_hit bc buf _ o X Y hb h2]
      simp [hxy, wrapInt32_load_store _ _ _ hY]
    · have h2 : wrapInt32 (load (store m (unsafeAdd buf.bufferPtr o) 4 (toUnsigned 32 Y))
          (unsafeAdd buf.bufferPtr o) 4) ≠ X := by rw [hY']; exact fun h => hxy h.symm
      rw [compareAndSetInt32_miss bc buf _ o X Y hb h2]
      simp [hxy, hY']
  · intro hc hY hold
    have hb := boundsCheck_ok_of_inRange bc o 8 buf.length (by omega) hc
    simp only [Buffer.GetInt64, hb, Except.ok.injEq] at hold
    have hY' := wrapInt64_load_store m (unsafeAdd buf.bufferPtr o) Y hY
    rw [compareAndSetInt64_hit bc buf m o X Y hb hold]
    simp only [Except.map, Except.bind, Buffer.GetInt64, hb, hY']
    by_cases hxy : X = Y
    · have h2 : wrapInt64 (load (store m (unsafeAdd buf.bufferPtr o) 8 (toUnsigned 64 Y))
          (unsafeAdd buf.bufferPtr o) 8) = X := by rw [hY', hxy]
      rw [compareAndSetInt64_hit bc buf _ o X Y hb h2]
      simp [hxy, wrapInt64_load_store _ _ _ hY]
    · have h2 : wrapInt64 (load (store m (unsafeAdd buf.bufferPtr o) 8 (toUnsigned 64 Y))
          (unsafeAdd buf.bufferPtr o) 8) ≠ X := by rw [hY']; exact fun h => hxy h.symm
      rw [compareAndSetInt64_miss bc buf _ o X Y hb h2]
      simp [hxy, hY']

/-- Witness for C5 (amended): a 16-byte buffer holding 7 at offset 0, `X = 7`, `Y = 9`. -/
theorem compareAndSet_twice_witness :
    (((Buffer.mk 4096 16).CompareAndSetInt32 .debug (store (fun _ => 0) 4096 8 7) 0 7 9).map
        Prod.fst = .ok true ∧
      ((Buffer.mk 4096 16).CompareAndSetInt32 .debug (store (fun _ => 0) 4096 8 7) 0 7 9).bind
        (fun r => (Buffer.mk 4096 16).GetInt32 .debug r.2 0) = .ok 9 ∧
      ((Buffer.mk 4096 16).CompareAndSetInt32 .debug (store (fun _ => 0) 4096 8 7) 0 7 9).bind
        (fun r => ((Buffer.mk 4096 16).CompareAndSetInt32 .debug r.2 0 7 9).map Prod.fst) =
          .ok (decide ((7 : Int) = 9)) ∧
      ((Buffer.mk 4096 16).CompareAndSetInt32 .debug (store (fun _ => 0) 4096 8 7) 0 7 9).bind
        (fun r => ((Buffer.mk 4096 16).CompareAndSetInt32 .debug r.2 0 7 9).bind
          (fun r' => (Buffer.mk 4096 16).GetInt32 .debug r'.2 0)) = .ok 9) ∧
    (((Buffer.mk 4096 16).CompareAndSetInt64 .debug (store (fun _ => 0) 4096 8 7) 0 7 9).map
        Prod.fst = .ok true ∧
      ((Buffer.mk 4096 16).CompareAndSetInt64 .debug (store (fun _ => 0) 4096 8 7) 0 7 9).bind
        (fun r => (Buffer.mk 4096 16).GetInt64 .debug r.2 0) = .ok 9 ∧
      ((Buffer.mk 4096 16).CompareAndSetInt64 .debug (store (fun _ => 0) 4096 8 7) 0 7 9).bind
        (fun r => ((Buffer.mk 4096 16).CompareAndSetInt64 .debug r.2 0 7 9).map Prod.fst) =
          .ok (decide ((7 : Int) = 9)) ∧
      ((Buffer.mk 4096 16).CompareAndSetInt64 .debug (store (fun _ => 0) 4096 8 7) 0 7 9).bind
        (fun r => ((Buffer.mk 4096 16).CompareAndSetInt64 .debug r.2 0 7 9).bind
          (fun r' => (Buffer.mk 4096 16).GetInt64 .debug r'.2 0)) = .ok 9) :=
  have h := compareAndSet_twice .debug (Buffer.mk 4096 16) (store (fun _ => 0) 4096 8 7)
    0 7 9 (by decide)
  ⟨h.1 (by decide) (by decide) rfl, h.2 (by decide) (by decide) rfl⟩


/-! ## Bulk moves -/

/-- Writing a list of bytes leaves every address outside the written range as it was. -/
theorem writeList_frame (bs : List Byte) : ∀ (m : Mem) (a x : Nat),
    (∀ i, i < bs.length → x ≠ (a + i) % 2 ^ 64) → writeList m a bs x = m x := by
  induction bs with
  | nil => intro m a x _; rfl
  | cons b bs ih =>
      intro m a x h
      simp only [writeList]
      rw [ih]
      · apply Mem.write_other
        simpa using h 0 (by simp)
      · intro i hi
        have := h (i + 1) (by simpa using hi)
        have e : a + 1 + i = a + (i + 1) := by omega
        rw [e]
        exact this

/-- After writing a list of at most `2 ^ 64` bytes, the `i`-th address of the range holds
the `i`-th byte of the list. -/
theorem writeList_get (bs : List Byte) : ∀ (m : Mem) (a i : Nat) (h : i < bs.length),
    bs.length ≤ 2 ^ 64 → writeList m a bs ((a + i) % 2 ^ 64) = bs[i] := by
  induction bs with
  | nil => intro m a i h; simp at h
  | cons b bs ih =>
      intro m a i h hlen
      simp only [List.length_cons] at h hlen
      simp only [writeList]
      cases i with
      | zero =>
          rw [writeList_frame bs _ (a + 1) ((a + 0) % 2 ^ 64) (by intro k hk; omega)]
          simp [Mem.write_same]
      | succ i =>
          have e : a + (i + 1) = a + 1 + i := by omega
          rw [e, ih _ (a + 1) i (by omega) (by omega)]
          simp

theorem readList_length (m : Mem) (a n : Nat) : (readList m a n).length = n := by
  simp [readList]

theorem readList_getElem (m : Mem) (a n i : Nat) (h : i < (readList m a n).length) :
    (readList m a n)[i] = m ((a + i) % 2 ^ 64) := by
  simp [readList]

/-- The move puts at the `i`-th destination address the byte the `i`-th source address
held before the move. -/
theorem memmove_dst (m : Mem) (dst src n i : Nat) (hi : i < n) (hn : n ≤ 2 ^ 64) :
    memmove m dst src n ((dst + i) % 2 ^ 64) = m ((src + i) % 2 ^ 64) := by
  unfold memmove
  rw [writeList_get _ m dst i (by rw [readList_length]; exact hi)
    (by rw [readList_length]; exact hn)]
  exact readList_getElem m src n i _

/-- The move leaves every address outside the destination range as it was. -/
theorem memmove_frame (m : Mem) (dst src n x : Nat)
    (h : ∀ i, i < n → x ≠ (dst + i) % 2 ^ 64) : memmove m dst src n x = m x := by
  unfold memmove
  apply writeList_frame
  intro i hi
  rw [readList_length] at hi
  exact h i hi

theorem toUnsigned64_of_nonneg (x : Int) (h0 : 0 ≤ x) (h1 : x < 2 ^ 63) :
    toUnsigned 64 x = x.toNat := by
  unfold toUnsigned
  simp only [Nat.reducePow, Int.reducePow] at *
  omega

/-- The memory `PutBytes` and `PutBytesArray` leave behind: destination byte `index + i`
is the source byte `i` from before the move, positions outside are untouched. -/
theorem byteAt_memmove (buf : Buffer) (m : Mem) (src : Nat) (index length : Int)
    (hi : IsInt32 index) (hl0 : 0 ≤ length) (hl : IsInt32 length) :
    (∀ i : Nat, (i : Int) < length →
      buf.byteAt (memmove m (unsafeAdd buf.bufferPtr index) src (toUnsigned 64 length))
        (index + i) = m ((src + i) % 2 ^ 64)) ∧
    (∀ j : Int, IsInt32 j → j < index ∨ index + length ≤ j →
      buf.byteAt (memmove m (unsafeAdd buf.bufferPtr index) src (toUnsigned 64 length)) j =
        buf.byteAt m j) := by
  have hlen : toUnsigned 64 length = length.toNat :=
    toUnsigned64_of_nonneg length hl0 (by unfold IsInt32 at hl; omega)
  unfold IsInt32 at hi hl
  rw [hlen]
  constructor
  · intro i hil
    unfold Buffer.byteAt
    rw [← unsafeAdd_add, memmove_dst _ _ _ _ i (by omega)
      (by simp only [Nat.reducePow, Int.reducePow] at *; omega)]
  · intro j hj hout
    unfold Buffer.byteAt
    apply memmove_frame
    intro i hil
    rw [unsafeAdd_add]
    unfold IsInt32 at hj
    apply unsafeAdd_ne
    · omega
    · simp only [Nat.reducePow, Int.reducePow] at *; omega
    · simp only [Nat.reducePow, Int.reducePow] at *; omega


/-- C7 (counterexample). In the checked build, `PutBytesArray(0, arr, 0, 1)` into a 16-byte
buffer from a non-empty slice of `2 ^ 31` bytes is in range (`0 + 1 ≤ 16`,
`0 + 1 ≤ len(arr)`), yet it stops with the bounds failure: `int32(len(*arr))` is
`-2147483648`. -/
theorem putBytesArray_halts_on_slice_of_2pow31_bytes :
    0 < (Slice.mk 8192 2147483648).len ∧
    (0 : Int) + 1 ≤ ((Slice.mk 8192 2147483648).len : Int) ∧
    (0 : Int) + 1 ≤ (Buffer.mk 4096 16).length ∧
    (Buffer.mk 4096 16).PutBytesArray .debug (fun _ => 0) 0 (Slice.mk 8192 2147483648) 0 1 =
      .error (.fatal 0 1 (-2147483648)) := by
  refine ⟨by decide, by decide, by decide, rfl⟩

/-- C7 (amended). Bulk put has move semantics, in both builds.  For `int32` arguments with
`0 ≤ length` and `index + length ≤ capacity`:
`PutBytes(index, src, srcOffset, length)` with `srcOffset + length ≤` the capacity of `src`
leaves at byte `index + i` of the destination the byte that was at `srcOffset + i` of the
source before the call, for every `i < length`, whether or not the two ranges overlap, and
leaves every destination byte outside `[index, index + length)` unchanged;
`PutBytesArray(index, arr, srcOffset, length)` with a non-empty slice of fewer than `2 ^ 31`
bytes and `srcOffset + length ≤ len(arr)` has the same effect with `arr` as the source. -/
theorem putBytes_move_semantics (bc : Build) (buf srcBuffer : Buffer) (arr : Slice)
    (m : Mem) (index srcOffset length : Int)
    (hi : IsInt32 index) (hs : IsInt32 srcOffset) (hl : IsInt32 length) (hl0 : 0 ≤ length)
    (hd : index + length ≤ buf.length) :
    (srcOffset + length ≤ srcBuffer.length →
      (∀ i : Nat, (i : Int) < length →
        (buf.PutBytes bc m index srcBuffer srcOffset length).map
          (fun m' => buf.byteAt m' (index + i)) = .ok (srcBuffer.byteAt m (srcOffset + i))) ∧
      (∀ j : Int, IsInt32 j → j < index ∨ index + length ≤ j →
        (buf.PutBytes bc m index srcBuffer srcOffset length).map
          (fun m' => buf.byteAt m' j) = .ok (buf.byteAt m j))) ∧
    (0 < arr.len → (arr.len : Int) < 2 ^ 31 → srcOffset + length ≤ arr.len →
      (∀ i : Nat, (i : Int) < length →
        (buf.PutBytesArray bc m index arr srcOffset length).map
          (fun m' => buf.byteAt m' (index + i)) =
            .ok (m (unsafeAdd arr.data (srcOffset + i)))) ∧
      (∀ j : Int, IsInt32 j → j < index ∨ index + length ≤ j →
        (buf.PutBytesArray bc m index arr srcOffset length).map
          (fun m' => buf.byteAt m' j) = .ok (buf.byteAt m j))) := by
  have hb := boundsCheck_ok_of_inRange bc index length buf.length
    (by unfold IsInt32 at hi; omega) hd
  constructor
  · intro hsrc
    have hb2 := boundsCheck_ok_of_inRange bc srcOffset length srcBuffer.length
      (by unfold IsInt32 at hs; omega) hsrc
    have hm := byteAt_memmove buf m (unsafeAdd srcBuffer.bufferPtr srcOffset) index length
      hi hl0 hl
    simp only [Buffer.PutBytes, hb, hb2, Except.map]
    constructor
    · intro i hil
      rw [hm.1 i hil, unsafeAdd_add]
      rfl
    · intro j hj hout
      rw [hm.2 j hj hout]
  · intro hne hlen hsrc
    have hw : wrapInt32 arr.len = arr.len :=
      wrapInt32_of_isInt32 ⟨by omega, hlen⟩
    have hb2 := boundsCheck_ok_of_inRange bc srcOffset length (wrapInt32 arr.len)
      (by unfold IsInt32 at hs; omega) (by rw [hw]; exact hsrc)
    have hm := byteAt_memmove buf m (unsafeAdd arr.data srcOffset) index length hi hl0 hl
    simp only [Buffer.PutBytesArray, hb, hb2, Slice.firstElem, hne, if_true, Except.map]
    constructor
    · intro i hil
      rw [hm.1 i hil, unsafeAdd_add]
    · intro j hj hout
      rw [hm.2 j hj hout]


/-- Witness for C7 (amended): an 8-byte buffer holding 1..8 moved onto itself, from offset 0
to offset 2, four bytes: the ranges overlap by two bytes, byte 4 receives the old byte 2
(the value 3) and byte 7 keeps its value; the same with the source given as a slice. -/
theorem putBytes_move_semantics_witness :
    (((Buffer.mk 4096 8).PutBytes .debug
          (writeList (fun _ => 0) 4096 [1, 2, 3, 4, 5, 6, 7, 8]) 2 (Buffer.mk 4096 8) 0 4).map
        (fun m' => (Buffer.mk 4096 8).byteAt m' (2 + ((2 : Nat) : Int))) = .ok 3 ∧
      ((Buffer.mk 4096 8).PutBytes .debug
          (writeList (fun _ => 0) 4096 [1, 2, 3, 4, 5, 6, 7, 8]) 2 (Buffer.mk 4096 8) 0 4).map
        (fun m' => (Buffer.mk 4096 8).byteAt m' 7) = .ok 8) ∧
    (((Buffer.mk 4096 8).PutBytesArray .debug
          (writeList (fun _ => 0) 4096 [1, 2, 3, 4, 5, 6, 7, 8]) 2 (Slice.mk 4096 8) 0 4).map
        (fun m' => (Buffer.mk 4096 8).byteAt m' (2 + ((2 : Nat) : Int))) = .ok 3 ∧
      ((Buffer.mk 4096 8).PutBytesArray .debug
          (writeList (fun _ => 0) 4096 [1, 2, 3, 4, 5, 6, 7, 8]) 2 (Slice.mk 4096 8) 0 4).map
        (fun m' => (Buffer.mk 4096 8).byteAt m' 7) = .ok 8) :=
  have h := putBytes_move_semantics .debug (Buffer.mk 4096 8) (Buffer.mk 4096 8)
    (Slice.mk 4096 8) (writeList (fun _ => 0) 4096 [1, 2, 3, 4, 5, 6, 7, 8]) 2 0 4
    (by decide) (by decide) (by decide) (by decide) (by decide)
  have hp := h.1 (by decide)
  have ha := h.2 (by decide) (by decide) (by decide)
  ⟨⟨hp.1 2 (by decide), hp.2 7 (by decide) (by decide)⟩,
   ⟨ha.1 2 (by decide), ha.2 7 (by decide) (by decide)⟩⟩

/-! ## Bulk reads -/

theorem readList_eq_bytesAt (buf : Buffer) (m : Mem) (offset : Int) (n : Nat) :
    readList m (unsafeAdd buf.bufferPtr offset) n = buf.bytesAt m offset n := by
  unfold readList Buffer.bytesAt Buffer.byteAt
  apply List.map_congr_left
  intro i _
  rw [unsafeAdd_add]

/-- A loop that copies byte `r ix` to byte `w ix` for `ix = 0, ..., n - 1`, one after the
other: when no written address is a read address and the written addresses differ from
one another, address `w i` ends with the byte `r i` held at the start, and all other
addresses keep their byte. -/
theorem copyLoop_spec (w r : Nat → Nat) (m : Mem) : ∀ n : Nat,
    (∀ i k, i < n → k < n → w i ≠ r k) →
    (∀ i k, i < n → k < n → i ≠ k → w i ≠ w k) →
    (∀ x, (∀ i, i < n → x ≠ w i) →
      (List.range n).foldl (fun acc ix => acc.write (w ix) (acc (r ix))) m x = m x) ∧
    (∀ i, i < n →
      (List.range n).foldl (fun acc ix => acc.write (w ix) (acc (r ix))) m (w i) =
        m (r i)) := by
  intro n
  induction n with
  | zero =>
      intro _ _
      exact ⟨fun x _ => rfl, fun i hi => absurd hi (Nat.not_lt_zero i)⟩
  | succ n ih =>
      intro hwr hww
      have ih' := ih (fun i k hi hk => hwr i k (by omega) (by omega))
        (fun i k hi hk hne => hww i k (by omega) (by omega) hne)
      simp only [List.range_succ, List.foldl_append, List.foldl_cons, List.foldl_nil]
      constructor
      · intro x hx
        rw [Mem.write_other _ _ (hx n (by omega))]
        exact ih'.1 x (fun i hi => hx i (by omega))
      · intro i hi
        by_cases hin : i = n
        · subst hin
          rw [Mem.write_same]
          exact ih'.1 (r i) (fun k hk => (hwr k i (by omega) (by omega)).symm)
        · rw [Mem.write_other _ _ (hww i n hi (by omega) hin)]
          exact ih'.2 i (by omega)


/-! ## The sink of `WriteBytes` -/

theorem readList_congr (m m' : Mem) (a a' n : Nat)
    (h : ∀ i, i < n → m ((a + i) % 2 ^ 64) = m' ((a' + i) % 2 ^ 64)) :
    readList m a n = readList m' a' n := by
  unfold readList
  apply List.map_congr_left
  intro i hi
  exact h i (List.mem_range.mp hi)

theorem readList_add (m : Mem) (a n₁ n₂ : Nat) :
    readList m a (n₁ + n₂) = readList m a n₁ ++ readList m (a + n₁) n₂ := by
  unfold readList
  rw [List.range_add, List.map_append, List.map_map]
  congr 1
  apply List.map_congr_left
  intro i _
  simp only [Function.comp, Nat.add_assoc]

/-- Zeroing a block leaves every address outside it as it was. -/
theorem zeroed_frame (m : Mem) (a n x : Nat) (h : ∀ i, i < n → x ≠ (a + i) % 2 ^ 64) :
    zeroed m a n x = m x := by
  unfold zeroed
  apply writeList_frame
  intro i hi
  rw [List.length_replicate] at hi
  exact h i hi

theorem afterReset_of_not (b : BytesBuffer) (h : ¬ (b.len - b.off = 0 ∧ b.off ≠ 0)) :
    b.afterReset = b := if_neg h

theorem afterReset_of_reset (b : BytesBuffer) (h : b.len - b.off = 0 ∧ b.off ≠ 0) :
    b.afterReset = { b with len := 0, off := 0 } := if_pos h

/-- Growing an empty sink whose read offset is not zero is growing the reset sink. -/
theorem grow_of_reset (al : Allocator) (b : BytesBuffer) (m : Mem) (n : Nat)
    (h : b.len - b.off = 0 ∧ b.off ≠ 0) :
    b.grow al m n = ({ b with len := 0, off := 0 } : BytesBuffer).grow al m n := by
  have h' : ¬ ((({ b with len := 0, off := 0 } : BytesBuffer).len -
      ({ b with len := 0, off := 0 } : BytesBuffer).off = 0) ∧
      ({ b with len := 0, off := 0 } : BytesBuffer).off ≠ 0) := fun hh => hh.2 rfl
  unfold BytesBuffer.grow
  rw [afterReset_of_reset b h, afterReset_of_not _ h']
  simp only [h.1, Nat.sub_self]

/-- What `grow` does to a sink that needs no reset: it returns, the sink has room for `n`
more bytes at the returned index, the contents are kept, and protected addresses (`P`),
which neither the sink's array nor the allocator's block contains, keep their bytes and
stay outside the sink's array. -/
theorem grow_spec_core (al : Allocator) (b : BytesBuffer) (m : Mem) (n : Nat)
    (P : Nat → Prop)
    (hnr : ¬ (b.len - b.off = 0 ∧ b.off ≠ 0))
    (hwf1 : b.off ≤ b.len) (hwf2 : b.len ≤ b.cap) (hnil : b.data = 0 → b.cap = 0)
    (hsmall : 2 * b.cap + n < 2 ^ 63)
    (hsink : ∀ i, i < b.cap → ¬ P ((b.data + i) % 2 ^ 64))
    (hneed : b.request n ≤ al.size)
    (halP : ∀ i, i < al.size → ¬ P ((al.addr + i) % 2 ^ 64))
    (halS : ∀ i k, i < al.size → k < b.cap →
      (al.addr + i) % 2 ^ 64 ≠ (b.data + k) % 2 ^ 64) :
    ∃ i b2 m1, b.grow al m n = .ok (i, b2, m1) ∧ b2.off ≤ i ∧ i + n ≤ b2.cap ∧
      i + n < 2 ^ 63 ∧ i - b2.off = b.len - b.off ∧
      (∀ k, k < b.len - b.off →
        m1 ((b2.data + b2.off + k) % 2 ^ 64) = m ((b.data + b.off + k) % 2 ^ 64)) ∧
      (∀ x, P x → m1 x = m x) ∧
      (∀ j, j < i + n → ¬ P ((b2.data + j) % 2 ^ 64)) := by
  have hb1 := afterReset_of_not b hnr
  unfold BytesBuffer.request at hneed
  rw [hb1] at hneed
  simp only at hneed
  by_cases h1 : n ≤ b.cap - b.len
  · refine ⟨b.len, { b with len := b.len + n }, m, ?_, hwf1,
      (by show b.len + n ≤ b.cap; omega), by omega, rfl, fun _ _ => rfl, fun _ _ => rfl, ?_⟩
    · simp only [BytesBuffer.grow, hb1, BytesBuffer.tryGrowByReslice, h1, if_true]
    · intro j hj
      exact hsink j (by omega)
  · by_cases h2 : b.data = 0 ∧ n ≤ 64
    · have hc := hnil h2.1
      have hl : b.len = 0 := by omega
      have ho : b.off = 0 := by omega
      rw [if_pos h2] at hneed
      refine ⟨0, { data := al.addr, len := n, cap := 64, off := b.off },
        zeroed m al.addr 64, ?_, by (try simp only); omega, by (try simp only); omega,
        by omega, by (try simp only); omega, ?_, ?_, ?_⟩
      · simp only [BytesBuffer.grow, hb1, BytesBuffer.tryGrowByReslice, h1, if_false]
        rw [if_pos h2]
      · intro k hk
        omega
      · intro x hx
        apply zeroed_frame
        intro i hi heq
        exact halP i (by omega) (heq ▸ hx)
      · intro j hj
        exact halP j (by omega)
    · rw [if_neg h2] at hneed
      by_cases h3 : (n : Int) ≤ ((b.cap / 2 : Nat) : Int) - ((b.len - b.off : Nat) : Int)
      · refine ⟨b.len - b.off, { b with len := b.len - b.off + n, off := 0 },
          memmove m b.data (b.data + b.off) (b.len - b.off), ?_, by (try simp only); omega,
          by (try simp only); omega, by omega, by (try simp only); omega, ?_, ?_, ?_⟩
        · simp only [BytesBuffer.grow, hb1, BytesBuffer.tryGrowByReslice, h1, if_false]
          rw [if_neg h2, if_pos h3]
        · intro k hk
          simp only [Nat.add_zero]
          have h := memmove_dst m b.data (b.data + b.off) (b.len - b.off) k hk (by omega)
          rw [h]
        · intro x hx
          apply memmove_frame
          intro i hi heq
          exact hsink i (by omega) (heq ▸ hx)
        · intro j hj
          exact hsink j (by omega)
      · have h4 : ¬ ((b.cap : Int) > (2 ^ 63 - 1) - (b.cap : Int) - (n : Int)) := by
          simp only [Nat.reducePow, Int.reducePow] at *
          omega
        have hsz : b.len - b.off + n ≤ al.size := by omega
        refine ⟨b.len - b.off,
          { data := al.addr, len := b.len - b.off + n, cap := al.size, off := 0 },
          memmove (zeroed m al.addr al.size) al.addr (b.data + b.off) (b.len - b.off),
          ?_, by (try simp only); omega, by (try simp only); omega, by omega,
          by (try simp only); omega, ?_, ?_, ?_⟩
        · simp only [BytesBuffer.grow, hb1, BytesBuffer.tryGrowByReslice, h1, if_false]
          rw [if_neg h2, if_neg h3, if_neg h4]
        · intro k hk
          simp only [Nat.add_zero]
          have h := memmove_dst (zeroed m al.addr al.size) al.addr (b.data + b.off)
            (b.len - b.off) k hk (by omega)
          rw [h]
          apply zeroed_frame
          intro i hi heq
          exact halS i (b.off + k) hi (by omega) (by rw [← heq, Nat.add_assoc])
        · intro x hx
          rw [memmove_frame _ _ _ _ x (fun i hi heq => halP i (by omega) (heq ▸ hx))]
          apply zeroed_frame
          intro i hi heq
          exact halP i hi (heq ▸ hx)
        · intro j hj
          exact halP j (by omega)

/-- What `grow` does to any well-formed sink: as `grow_spec_core`, the reset included. -/
theorem grow_spec (al : Allocator) (b : BytesBuffer) (m : Mem) (n : Nat) (P : Nat → Prop)
    (hwf1 : b.off ≤ b.len) (hwf2 : b.len ≤ b.cap) (hnil : b.data = 0 → b.cap = 0)
    (hsmall : 2 * b.cap + n < 2 ^ 63)
    (hsink : ∀ i, i < b.cap → ¬ P ((b.data + i) % 2 ^ 64))
    (hneed : b.request n ≤ al.size)
    (halP : ∀ i, i < al.size → ¬ P ((al.addr + i) % 2 ^ 64))
    (halS : ∀ i k, i < al.size → k < b.cap →
      (al.addr + i) % 2 ^ 64 ≠ (b.data + k) % 2 ^ 64) :
    ∃ i b2 m1, b.grow al m n = .ok (i, b2, m1) ∧ b2.off ≤ i ∧ i + n ≤ b2.cap ∧
      i + n < 2 ^ 63 ∧ i - b2.off = b.len - b.off ∧
      (∀ k, k < b.len - b.off →
        m1 ((b2.data + b2.off + k) % 2 ^ 64) = m ((b.data + b.off + k) % 2 ^ 64)) ∧
      (∀ x, P x → m1 x = m x) ∧
      (∀ j, j < i + n → ¬ P ((b2.data + j) % 2 ^ 64)) := by
  by_cases hr : b.len - b.off = 0 ∧ b.off ≠ 0
  · have hreq : ({ b with len := 0, off := 0 } : BytesBuffer).request n = b.request n := by
      unfold BytesBuffer.request
      rw [afterReset_of_reset b hr, afterReset_of_not _ (fun hh => hh.2 rfl)]
    obtain ⟨i, b2, m1, hg, p1, p2, p3, p4, p5, p6, p7⟩ :=
      grow_spec_core al { b with len := 0, off := 0 } m n P (fun hh => hh.2 rfl)
        (Nat.le_refl 0) (Nat.zero_le _) hnil hsmall hsink (by rw [hreq]; exact hneed)
        halP halS
    refine ⟨i, b2, m1, by rw [grow_of_reset al b m n hr]; exact hg, p1, p2, p3, ?_, ?_,
      p6, p7⟩
    · rw [hr.1]
      exact p4
    · intro k hk
      omega
  · exact grow_spec_core al b m n P hr hwf1 hwf2 hnil hsmall hsink hneed halP halS

/-- What `WriteBytes` does for an in-range call on a buffer that does not contain the nil
address, with a well-formed sink whose array, like the allocator's block, lies apart from
the buffer: it returns, the sink holds its former contents followed by the `length`
bytes of the buffer from `offset`, and the buffer's bytes are unchanged. -/
theorem writeBytes_spec (bc : Build) (al : Allocator) (buf : Buffer) (m : Mem)
    (dest : BytesBuffer) (offset length : Int)
    (ho : 0 ≤ offset) (hl0 : 0 ≤ length) (hc : offset + length ≤ buf.length)
    (hnn : ∀ j : Int, 0 ≤ j → j < buf.length → unsafeAdd buf.bufferPtr j ≠ 0)
    (hwf1 : dest.off ≤ dest.len) (hwf2 : dest.len ≤ dest.cap)
    (hnil : dest.data = 0 → dest.cap = 0)
    (hsmall : 2 * dest.cap + length.toNat < 2 ^ 63)
    (hsink : ∀ i, i < dest.cap → ∀ j : Int, 0 ≤ j → j < buf.length →
      (dest.data + i) % 2 ^ 64 ≠ unsafeAdd buf.bufferPtr j)
    (hneed : dest.request length.toNat ≤ al.size)
    (halB : ∀ i, i < al.size → ∀ j : Int, 0 ≤ j → j < buf.length →
      (al.addr + i) % 2 ^ 64 ≠ unsafeAdd buf.bufferPtr j)
    (halS : ∀ i k, i < al.size → k < dest.cap →
      (al.addr + i) % 2 ^ 64 ≠ (dest.data + k) % 2 ^ 64) :
    ∃ d2 m2, buf.WriteBytes bc al m dest offset length = .ok (d2, m2) ∧
      d2.bytes m2 = dest.bytes m ++ buf.bytesAt m offset length.toNat ∧
      ∀ j : Int, 0 ≤ j → j < buf.length → buf.byteAt m2 j = buf.byteAt m j := by
  obtain ⟨i, b2, m1, hg, p1, p2, p3, p4, p5, p6, p7⟩ :=
    grow_spec al dest m length.toNat
      (fun x => ∃ j : Int, 0 ≤ j ∧ j < buf.length ∧ x = unsafeAdd buf.bufferPtr j)
      hwf1 hwf2 hnil hsmall
      (fun i hi ⟨j, hj0, hj1, e⟩ => hsink i hi j hj0 hj1 e) hneed
      (fun i hi ⟨j, hj0, hj1, e⟩ => halB i hi j hj0 hj1 e) halS
  have hbc : BoundsCheck bc offset length buf.length = .ok () :=
    boundsCheck_ok_of_inRange bc offset length buf.length
      (by simp only [Nat.reducePow, Int.reducePow]; omega) hc
  have hus : unsafeSlice (unsafeAdd buf.bufferPtr offset) length =
      .ok ⟨unsafeAdd buf.bufferPtr offset, length.toNat⟩ := by
    unfold unsafeSlice
    rw [if_neg (by omega), if_neg]
    rintro ⟨h0, hne⟩
    exact hnn offset ho (by omega) h0
  have hroom : length.toNat ≤ b2.cap - i := by omega
  have hmin : min (i + length.toNat - i) length.toNat = length.toNat := by
    rw [Nat.add_sub_cancel_left, Nat.min_self]
  refine ⟨{ b2 with len := i + length.toNat },
    memmove m1 (b2.data + i) (unsafeAdd buf.bufferPtr offset) length.toNat, ?_, ?_, ?_⟩
  · simp only [Buffer.WriteBytes, hbc, BytesBuffer.Grow, if_neg (not_lt.mpr hl0), hg, hus,
      BytesBuffer.Write, BytesBuffer.tryGrowByReslice]
    rw [if_pos hroom]
    simp only [hmin]
  · show readList _ (b2.data + b2.off) (i + length.toNat - b2.off) =
      readList m (dest.data + dest.off) (dest.len - dest.off) ++ _
    have e : i + length.toNat - b2.off = (dest.len - dest.off) + length.toNat := by omega
    have e2 : b2.data + b2.off + (dest.len - dest.off) = b2.data + i := by omega
    rw [e, readList_add, e2, ← readList_eq_bytesAt]
    refine congrArg₂ (· ++ ·) ?_ ?_
    · apply readList_congr
      intro k hk
      rw [memmove_frame]
      · exact p5 k hk
      · intro t ht heq
        simp only [Nat.reducePow] at *
        omega
    · apply readList_congr
      intro t ht
      rw [memmove_dst _ _ _ _ t ht (by simp only [Nat.reducePow] at *; omega), unsafeAdd_add]
      exact p6 _ ⟨offset + (t : Int), by omega, by omega, rfl⟩
  · intro j hj0 hj1
    unfold Buffer.byteAt
    rw [memmove_frame]
    · exact p6 _ ⟨j, hj0, hj1, rfl⟩
    · intro t ht heq
      exact p7 (i + t) (by omega) ⟨j, hj0, hj1, by rw [← Nat.add_assoc, heq]⟩

/-- For a length that is not negative and a pointer that is not nil (or a length of zero),
`unsafe.Slice` returns the slice. -/
theorem unsafeSlice_ok (ptr : Nat) (len : Int) (h0 : 0 ≤ len) (hn : len ≠ 0 → ptr ≠ 0) :
    unsafeSlice ptr len = .ok ⟨ptr, len.toNat⟩ := by
  unfold unsafeSlice
  rw [if_neg (by omega), if_neg]
  rintro ⟨h, hne⟩
  exact hn hne h

/-- C8 (counterexample). A 4-byte buffer at address 4096 holds 1, 2, 3, 4.
First, `b` is the view `GetBytesArray(1, 3)` of that buffer: `GetBytes(0, b)` with
`len(b) = 3` is in range, yet it leaves `b` equal to 1, 1, 1, not to the requested bytes
1, 2, 3, and it changes the buffer's bytes to 1, 1, 1, 1.
Second, the sink is `bytes.NewBuffer(view[:0])` for the view `GetBytesArray(0, 4)`, an
empty sink with capacity 4 on the buffer's own memory: `WriteBytes(dest, 2, 2)` is in
range, the sink ends holding 3, 4, and the buffer's bytes change to 3, 4, 3, 4.
Third, a buffer of capacity 4 that wraps the nil pointer: `GetBytesArray(0, 2)` is in
range, yet `unsafe.Slice` panics and no slice is returned. -/
theorem bulk_reads_into_overlapping_storage :
    (Buffer.mk 4096 4).GetBytesArray .debug 1 3 = .ok (Slice.mk 4097 3) ∧
    (Buffer.mk 4096 4).bytesAt (writeList (fun _ => 0) 4096 [1, 2, 3, 4]) 0 3 = [1, 2, 3] ∧
    ((Buffer.mk 4096 4).GetBytes .debug (writeList (fun _ => 0) 4096 [1, 2, 3, 4]) 0
        (Slice.mk 4097 3)).map (fun m' => (Slice.mk 4097 3).bytes m') = .ok [1, 1, 1] ∧
    ((Buffer.mk 4096 4).GetBytes .debug (writeList (fun _ => 0) 4096 [1, 2, 3, 4]) 0
        (Slice.mk 4097 3)).map (fun m' => (Buffer.mk 4096 4).bytesAt m' 0 4) =
      .ok [1, 1, 1, 1] ∧
    (Buffer.mk 4096 4).GetBytesArray .debug 0 4 = .ok (Slice.mk 4096 4) ∧
    (Buffer.mk 4096 4).bytesAt (writeList (fun _ => 0) 4096 [1, 2, 3, 4]) 2 2 = [3, 4] ∧
    ((Buffer.mk 4096 4).WriteBytes .debug (Allocator.mk 65536 1024)
        (writeList (fun _ => 0) 4096 [1, 2, 3, 4]) (BytesBuffer.mk 4096 0 4 0) 2 2).map
        (fun r => r.1.bytes r.2) = .ok [3, 4] ∧
    ((Buffer.mk 4096 4).WriteBytes .debug (Allocator.mk 65536 1024)
        (writeList (fun _ => 0) 4096 [1, 2, 3, 4]) (BytesBuffer.mk 4096 0 4 0) 2 2).map
        (fun r => (Buffer.mk 4096 4).bytesAt r.2 0 4) = .ok [3, 4, 3, 4] ∧
    (Buffer.mk 0 4).GetBytesArray .debug 0 2 =
      .error (.panic "runtime error: unsafe.Slice: ptr is nil and len is not zero") := by
  refine ⟨rfl, rfl, rfl, rfl, rfl, rfl, rfl, rfl, rfl⟩

/-- C8 (amended). The three bulk reads, in both builds, for a buffer with an `int32`
capacity whose memory does not contain the nil address, and `0 ≤ offset`, `0 ≤ length`,
`offset + length ≤ capacity`:
`GetBytesArray(offset, length)` has length `length` and views the buffer bytes at
`offset + i`;
`GetBytes(offset, b)` with `len(b) = length`, for a slice `b` whose storage does not
overlap the buffer's memory, makes `b` equal to those bytes and leaves every byte of the
buffer unchanged;
`WriteBytes(dest, offset, length)`, for a well-formed sink `dest` (`off ≤ len ≤ cap`, a nil
array has capacity zero, `2 * cap + length` is an `int`) whose array does not overlap the
buffer's memory, the block the allocator hands out when asked being large enough and
fresh (apart from the buffer's memory and from the sink's array), returns, leaves `dest`
holding its previous contents followed by those bytes, and leaves every byte of the
buffer unchanged. -/
theorem bulk_reads_agree (bc : Build) (al : Allocator) (buf : Buffer) (m : Mem)
    (offset length : Int) (b : Slice) (dest : BytesBuffer)
    (ho : 0 ≤ offset) (hl0 : 0 ≤ length) (hc : offset + length ≤ buf.length)
    (hcap : IsInt32 buf.length)
    (hnn : ∀ j : Int, 0 ≤ j → j < buf.length → unsafeAdd buf.bufferPtr j ≠ 0) :
    (buf.GetBytesArray bc offset length).map Slice.len = .ok length.toNat ∧
    (buf.GetBytesArray bc offset length).map (fun s => s.bytes m) =
      .ok (buf.bytesAt m offset length.toNat) ∧
    ((b.len : Int) = length →
      (∀ i, i < b.len → ∀ j : Int, 0 ≤ j → j < buf.length →
        b.addr i ≠ unsafeAdd buf.bufferPtr j) →
      (buf.GetBytes bc m offset b).map (fun m' => b.bytes m') =
        .ok (buf.bytesAt m offset length.toNat) ∧
      ∀ j : Int, 0 ≤ j → j < buf.length →
        (buf.GetBytes bc m offset b).map (fun m' => buf.byteAt m' j) =
          .ok (buf.byteAt m j)) ∧
    (dest.off ≤ dest.len → dest.len ≤ dest.cap → (dest.data = 0 → dest.cap = 0) →
      2 * dest.cap + length.toNat < 2 ^ 63 →
      (∀ i, i < dest.cap → ∀ j : Int, 0 ≤ j → j < buf.length →
        (dest.data + i) % 2 ^ 64 ≠ unsafeAdd buf.bufferPtr j) →
      dest.request length.toNat ≤ al.size →
      (∀ i, i < al.size → ∀ j : Int, 0 ≤ j → j < buf.length →
        (al.addr + i) % 2 ^ 64 ≠ unsafeAdd buf.bufferPtr j) →
      (∀ i k, i < al.size → k < dest.cap →
        (al.addr + i) % 2 ^ 64 ≠ (dest.data + k) % 2 ^ 64) →
      (buf.WriteBytes bc al m dest offset length).map (fun r => r.1.bytes r.2) =
        .ok (dest.bytes m ++ buf.bytesAt m offset length.toNat) ∧
      ∀ j : Int, 0 ≤ j → j < buf.length →
        (buf.WriteBytes bc al m dest offset length).map (fun r => buf.byteAt r.2 j) =
          .ok (buf.byteAt m j)) := by
  have hb := boundsCheck_ok_of_inRange bc offset length buf.length (by omega) hc
  have hus := unsafeSlice_ok (unsafeAdd buf.bufferPtr offset) length hl0
    (fun hne => hnn offset ho (by omega))
  unfold IsInt32 at hcap
  refine ⟨?_, ?_, ?_, ?_⟩
  · simp only [Buffer.GetBytesArray, hb, hus, Except.map]
  · simp only [Buffer.GetBytesArray, hb, hus, Except.map, Slice.bytes, readList_eq_bytesAt]
  · intro hlen hdis
    have hw : wrapInt32 (b.len : Int) = length := by
      rw [hlen]
      exact wrapInt32_of_isInt32 ⟨by omega, by omega⟩
    have hn : length.toNat = b.len := by omega
    have hr : ∀ ix : Nat, ix < b.len →
        wrapInt32 (offset + wrapInt32 (ix : Int)) = offset + ix := by
      intro ix hix
      rw [wrapInt32_of_isInt32 (x := (ix : Int)) ⟨by omega, by omega⟩]
      exact wrapInt32_of_isInt32 ⟨by omega, by omega⟩
    have hspec := copyLoop_spec b.addr
      (fun ix => unsafeAdd buf.bufferPtr (wrapInt32 (offset + wrapInt32 (ix : Int)))) m b.len
      (by
        intro i k hi hk
        simp only [hr k hk]
        exact hdis i hi (offset + k) (by omega) (by omega))
      (by
        intro i k hi hk hne
        unfold Slice.addr
        simp only [Nat.reducePow, Int.reducePow] at *
        omega)
    simp only [Buffer.GetBytes, hw, hb, Except.map]
    constructor
    · refine congrArg Except.ok ?_
      rw [hn]
      unfold Slice.bytes readList Buffer.bytesAt Buffer.byteAt
      apply List.map_congr_left
      intro i hi
      have hi' : i < b.len := List.mem_range.mp hi
      have h2 := hspec.2 i hi'
      simp only [hr i hi'] at h2
      exact h2
    · intro j hj0 hj1
      refine congrArg Except.ok ?_
      unfold Buffer.byteAt
      exact hspec.1 _ (fun i hi => (hdis i hi j hj0 hj1).symm)
  · intro hwf1 hwf2 hnil hsmall hsink hneed halB halS
    obtain ⟨d2, m2, hw, hcontents, hframe⟩ := writeBytes_spec bc al buf m dest offset length
      ho hl0 hc hnn hwf1 hwf2 hnil hsmall hsink hneed halB halS
    rw [hw]
    exact ⟨congrArg Except.ok hcontents, fun j hj0 hj1 => congrArg Except.ok (hframe j hj0 hj1)⟩

/-- Witness for C8 (amended): a 4-byte buffer at address 4096 holding 1, 2, 3, 4, read at
offset 1 for two bytes, with a destination slice at address 8192 and a sink of capacity 8
at address 8192 holding the byte 9; the allocator's block is at address 65536. -/
theorem bulk_reads_agree_witness :
    ((Buffer.mk 4096 4).GetBytesArray .debug 1 2).map Slice.len = .ok 2 ∧
    ((Buffer.mk 4096 4).GetBytesArray .debug 1 2).map
        (fun s => s.bytes (writeList (writeList (fun _ => 0) 4096 [1, 2, 3, 4]) 8192 [9])) =
      .ok [2, 3] ∧
    ((Buffer.mk 4096 4).GetBytes .debug
        (writeList (writeList (fun _ => 0) 4096 [1, 2, 3, 4]) 8192 [9]) 1
        (Slice.mk 8192 2)).map (fun m' => (Slice.mk 8192 2).bytes m') = .ok [2, 3] ∧
    ((Buffer.mk 4096 4).GetBytes .debug
        (writeList (writeList (fun _ => 0) 4096 [1, 2, 3, 4]) 8192 [9]) 1
        (Slice.mk 8192 2)).map (fun m' => (Buffer.mk 4096 4).byteAt m' 2) = .ok 3 ∧
    ((Buffer.mk 4096 4).WriteBytes .debug (Allocator.mk 65536 64)
        (writeList (writeList (fun _ => 0) 4096 [1, 2, 3, 4]) 8192 [9])
        (BytesBuffer.mk 8192 1 8 0) 1 2).map (fun r => r.1.bytes r.2) = .ok [9, 2, 3] ∧
    ((Buffer.mk 4096 4).WriteBytes .debug (Allocator.mk 65536 64)
        (writeList (writeList (fun _ => 0) 4096 [1, 2, 3, 4]) 8192 [9])
        (BytesBuffer.mk 8192 1 8 0) 1 2).map (fun r => (Buffer.mk 4096 4).byteAt r.2 2) =
      .ok 3 :=
  have h := bulk_reads_agree .debug (Allocator.mk 65536 64) (Buffer.mk 4096 4)
    (writeList (writeList (fun _ => 0) 4096 [1, 2, 3, 4]) 8192 [9]) 1 2 (Slice.mk 8192 2)
    (BytesBuffer.mk 8192 1 8 0)
    (by decide) (by decide) (by decide) (by decide) (by
      intro j hj0 hj1
      have hj' : j < 4 := hj1
      unfold unsafeAdd
      simp only [Nat.reducePow, Int.reducePow]
      omega)
  have hg := h.2.2.1 (by decide) (by
    intro i hi j hj0 hj1
    have hi' : i < 2 := hi
    have hj' : j < 4 := hj1
    unfold Slice.addr unsafeAdd
    simp only [Nat.reducePow, Int.reducePow]
    omega)
  have hw := h.2.2.2 (by decide) (by decide) (by decide) (by decide)
    (by
      intro i hi j hj0 hj1
      have hi' : i < 8 := hi
      have hj' : j < 4 := hj1
      unfold unsafeAdd
      simp only [Nat.reducePow, Int.reducePow]
      omega)
    (by decide)
    (by
      intro i hi j hj0 hj1
      have hi' : i < 64 := hi
      have hj' : j < 4 := hj1
      unfold unsafeAdd
      simp only [Nat.reducePow, Int.reducePow]
      omega)
    (by
      intro i k hi hk
      have hi' : i < 64 := hi
      have hk' : k < 8 := hk
      simp only [Nat.reducePow]
      omega)
  ⟨h.1, h.2.1, hg.1, hg.2 2 (by decide) (by decide), hw.1, hw.2 2 (by decide) (by decide)⟩


/-! ## Fill -/

theorem unsafeAdd_lt (p : Nat) (o : Int) : unsafeAdd p o < 2 ^ 64 := by
  unfold unsafeAdd
  simp only [Nat.reducePow, Int.reducePow]
  omega

theorem store_one (m : Mem) (a v : Nat) :
    store m a 1 v = m.write (a % 2 ^ 64) (byteOfNat v) := rfl

/-- The loop of `Fill`, run for `n` rounds, leaves `b` in each of the first `n` bytes. -/
theorem fillLoop_spec (p b : Nat) (m : Mem) : ∀ n k : Nat, k < n →
    (List.range n).foldl (fun acc (ix : Nat) => store acc (unsafeAdd p (ix : Int)) 1 b) m
      (unsafeAdd p (k : Int)) = byteOfNat b := by
  intro n
  induction n with
  | zero => intro k hk; exact absurd hk (Nat.not_lt_zero k)
  | succ n ih =>
      intro k hk
      simp only [List.range_succ, List.foldl_append, List.foldl_cons, List.foldl_nil,
        store_one]
      rw [Nat.mod_eq_of_lt (unsafeAdd_lt p n)]
      by_cases hkn : unsafeAdd p (k : Int) = unsafeAdd p (n : Int)
      · rw [hkn, Mem.write_same]
      · rw [Mem.write_other _ _ hkn]
        apply ih
        have : k ≠ n := fun h => hkn (by rw [h])
        omega

/-- C9. `Fill` sets every byte, in both builds: after `Fill(b)` with a `uint8` value `b`,
`GetUInt8(i)` returns `b` for every `i` with `0 ≤ i < capacity`, read through the same,
unchanged buffer value (`Fill` never assigns the receiver's base or capacity, so the
embedding has no buffer output); and for a buffer of capacity 0 `Fill` leaves the memory
as it was. -/
theorem fill_sets_every_byte (bc : Build) (buf : Buffer) (m : Mem) (b : Nat)
    (hb : b < 2 ^ 8) :
    (∀ i : Int, 0 ≤ i → i < buf.Capacity → buf.GetUInt8 bc (buf.Fill m b) i = .ok b) ∧
    (buf.Capacity = 0 → buf.Fill m b = m) := by
  constructor
  · intro i hi0 hi1
    unfold Buffer.Capacity at hi1
    have hchk := boundsCheck_ok_of_inRange bc i 1 buf.length (by omega) (by omega)
    have hne : buf.length ≠ 0 := by omega
    simp only [Buffer.GetUInt8, hchk, Buffer.Fill, hne, if_false, load]
    rw [Nat.mod_eq_of_lt (unsafeAdd_lt _ i)]
    have hk : i = ((i.toNat : Nat) : Int) := by omega
    rw [hk, fillLoop_spec buf.bufferPtr b m buf.length.toNat i.toNat (by omega)]
    refine congrArg Except.ok ?_
    show b % 256 + 256 * 0 = b
    omega
  · intro h0
    unfold Buffer.Capacity at h0
    simp only [Buffer.Fill, h0, if_true]

/-- Witness for C9: a 4-byte buffer filled with 171, read at offset 3; and an empty buffer. -/
theorem fill_sets_every_byte_witness :
    (Buffer.mk 4096 4).GetUInt8 .debug ((Buffer.mk 4096 4).Fill (fun _ => 0) 171) 3 =
      .ok 171 ∧
    (Buffer.mk 4096 0).Fill (fun _ => 0) 171 = (fun _ => 0) :=
  ⟨(fill_sets_every_byte .debug (Buffer.mk 4096 4) (fun _ => 0) 171 (by decide)).1 3
      (by decide) (by decide),
   (fill_sets_every_byte .debug (Buffer.mk 4096 0) (fun _ => 0) 171 (by decide)).2 rfl⟩

/-! ## Construction -/

theorem unsafeAdd_natCast (p i : Nat) : unsafeAdd p (i : Int) = (p + i) % 2 ^ 64 := by
  unfold unsafeAdd
  simp only [Nat.reducePow, Int.reducePow]
  omega

/-- C10 (counterexample). For a non-empty slice of `2 ^ 31` bytes `MakeBuffer(s)` returns a
buffer whose `Capacity()` is `-2147483648`, not `len(s)`. -/
theorem makeBuffer_capacity_of_slice_of_2pow31_bytes :
    0 < (Slice.mk 8192 2147483648).len ∧
    (MakeBuffer [.bytes (Slice.mk 8192 2147483648)]).map Buffer.Capacity =
      .ok (-2147483648) ∧
    (MakeBuffer [.bytes (Slice.mk 8192 2147483648)]).map Buffer.Capacity ≠
      .ok (((Slice.mk 8192 2147483648).len : Nat) : Int) := by
  refine ⟨by decide, rfl, ?_⟩
  intro h
  exact absurd (Except.ok.inj h) (by decide)

/-- C10 (amended). Construction and re-wrap.  For every non-empty byte slice `s`:
when `len(s) < 2 ^ 31`, `MakeBuffer(s)` returns a buffer with `Capacity() = len(s)` whose
byte at every offset `i < len(s)` is `s[i]`; `MakeBuffer(s, n)` with an `int32` `n`
returns a buffer over the same bytes with `Capacity() = n`; and for every buffer
`Wrap(p, n)` returns the buffer with `Ptr() = p` and `Capacity() = n`, whatever view it
held before. -/
theorem makeBuffer_and_wrap (s : Slice) (m : Mem) (n : Int) (buf : Buffer) (p : Nat)
    (hs : 0 < s.len) :
    ((s.len : Int) < 2 ^ 31 →
      (MakeBuffer [.bytes s]).map Buffer.Capacity = .ok (s.len : Int) ∧
      (MakeBuffer [.bytes s]).map Buffer.Ptr = .ok s.data ∧
      ∀ i : Nat, i < s.len →
        (MakeBuffer [.bytes s]).map (fun b => b.byteAt m i) = .ok (m (s.addr i))) ∧
    (IsInt32 n →
      (MakeBuffer [.bytes s, .int32 n]).map Buffer.Capacity = .ok n ∧
      (MakeBuffer [.bytes s, .int32 n]).map Buffer.Ptr = .ok s.data ∧
      ∀ i : Nat, i < s.len →
        (MakeBuffer [.bytes s, .int32 n]).map (fun b => b.byteAt m i) =
          .ok (m (s.addr i))) ∧
    (buf.Wrap p n).Ptr = p ∧ (buf.Wrap p n).Capacity = n ∧
    buf.Wrap p n = { bufferPtr := p, length := n } := by
  refine ⟨?_, ?_, rfl, rfl, rfl⟩
  · intro hlen
    have hw : wrapInt32 (s.len : Int) = s.len := wrapInt32_of_isInt32 ⟨by omega, hlen⟩
    simp only [MakeBuffer, Slice.firstElem, hs, if_true, Except.map, Buffer.Wrap,
      Buffer.Capacity, Buffer.Ptr, Buffer.byteAt, hw, unsafeAdd_natCast, Slice.addr]
    exact ⟨trivial, trivial, fun _ _ => trivial⟩
  · intro hn
    have hw : wrapInt32 n = n := wrapInt32_of_isInt32 hn
    have hnil : (Arg.int32 n = Arg.nil) = False := by simp
    simp only [MakeBuffer, hnil, if_false, Arg.asInt32, Option.getD, Slice.firstElem, hs,
      if_true, Except.map, Buffer.Wrap, Buffer.Capacity, Buffer.Ptr, Buffer.byteAt, hw,
      unsafeAdd_natCast, Slice.addr]
    exact ⟨trivial, trivial, fun _ _ => trivial⟩


/-- Witness for C10 (amended): a 4-byte slice at address 8192 holding 5, 6, 7, 8, the
explicit length 2, and a re-wrap of a 16-byte buffer onto address 12288 with length 2. -/
theorem makeBuffer_and_wrap_witness :
    ((MakeBuffer [.bytes (Slice.mk 8192 4)]).map Buffer.Capacity = .ok 4 ∧
      (MakeBuffer [.bytes (Slice.mk 8192 4)]).map Buffer.Ptr = .ok 8192 ∧
      (MakeBuffer [.bytes (Slice.mk 8192 4)]).map
        (fun b => b.byteAt (writeList (fun _ => 0) 8192 [5, 6, 7, 8]) ((2 : Nat) : Int)) =
          .ok 7) ∧
    ((MakeBuffer [.bytes (Slice.mk 8192 4), .int32 2]).map Buffer.Capacity = .ok 2 ∧
      (MakeBuffer [.bytes (Slice.mk 8192 4), .int32 2]).map Buffer.Ptr = .ok 8192 ∧
      (MakeBuffer [.bytes (Slice.mk 8192 4), .int32 2]).map
        (fun b => b.byteAt (writeList (fun _ => 0) 8192 [5, 6, 7, 8]) ((2 : Nat) : Int)) =
          .ok 7) ∧
    ((Buffer.mk 4096 16).Wrap 12288 2).Ptr = 12288 ∧
    ((Buffer.mk 4096 16).Wrap 12288 2).Capacity = 2 ∧
    (Buffer.mk 4096 16).Wrap 12288 2 = { bufferPtr := 12288, length := 2 } :=
  have h := makeBuffer_and_wrap (Slice.mk 8192 4) (writeList (fun _ => 0) 8192 [5, 6, 7, 8])
    2 (Buffer.mk 4096 16) 12288 (by decide)
  have h1 := h.1 (by decide)
  have h2 := h.2.1 (by decide)
  ⟨⟨h1.1, h1.2.1, h1.2.2 2 (by decide)⟩, ⟨h2.1, h2.2.1, h2.2.2 2 (by decide)⟩, h.2.2⟩



/-! ## Alignment -/

/-- Masking off the `k` low bits of an `n`-bit number rounds it down to a multiple of
`2 ^ k`. -/
theorem and_two_pow_sub_two_pow (u k n : Nat) (hk : k ≤ n) (hu : u < 2 ^ n) :
    u &&& (2 ^ n - 2 ^ k) = u - u % 2 ^ k := by
  have hkpos := Nat.two_pow_pos k
  have hkn : 2 ^ k ≤ 2 ^ n := Nat.pow_le_pow_right (by decide) hk
  have e1 : 2 ^ n - 2 ^ k = 2 ^ n - ((2 ^ k - 1) + 1) := by omega
  have e2 : u - u % 2 ^ k = 2 ^ k * (u >>> k) := by
    rw [Nat.shiftRight_eq_div_pow]
    have := Nat.div_add_mod u (2 ^ k)
    omega
  apply Nat.eq_of_testBit_eq
  intro i
  rw [Nat.testBit_and, e1, Nat.testBit_two_pow_sub_succ (by omega), Nat.testBit_two_pow_sub_one,
    e2, Nat.testBit_mul_pow_two, Nat.testBit_shiftRight]
  by_cases hik : i < k
  · have : ¬ i ≥ k := by omega
    simp [hik, this]
  · have hge : i ≥ k := by omega
    have e3 : k + (i - k) = i := by omega
    rw [e3]
    by_cases hin : i < n
    · simp [hik, hge, hin]
    · have : u < 2 ^ i := Nat.lt_of_lt_of_le hu (Nat.pow_le_pow_right (by decide) (by omega))
      simp [Nat.testBit_lt_two_pow this]

theorem wrapInt32_isInt32 (x : Int) : IsInt32 (wrapInt32 x) := by
  unfold IsInt32 wrapInt32
  omega

theorem toUnsigned32_lt (x : Int) : toUnsigned 32 x < 2 ^ 32 := by
  unfold toUnsigned
  omega

theorem toUnsigned32_not_mask : ∀ k : Nat, k ≤ 30 →
    toUnsigned 32 (notInt32 (wrapInt32 (2 ^ k - 1))) = 2 ^ 32 - 2 ^ k := by
  decide

/-- With a mask `^(2 ^ k - 1)` the `int32` and rounds down to a multiple of `2 ^ k`. -/
theorem andInt32_not_mask (s : Int) (k : Nat) (hk : k ≤ 30) (hs : IsInt32 s) :
    andInt32 s (notInt32 (wrapInt32 (2 ^ k - 1))) = s - s % 2 ^ k := by
  have hu := toUnsigned32_lt s
  have hU : ((toUnsigned 32 s : Nat) : Int) = s ∨
      ((toUnsigned 32 s : Nat) : Int) = s + 2 ^ 32 := by
    unfold IsInt32 at hs
    unfold toUnsigned
    omega
  unfold IsInt32 at hs
  unfold andInt32
  rw [toUnsigned32_not_mask k hk, and_two_pow_sub_two_pow _ k 32 (by omega) hu]
  generalize toUnsigned 32 s = u at *
  unfold wrapInt32
  interval_cases k <;> simp only [Nat.reducePow, Int.reducePow] at * <;> omega


theorem two_pow_bounds (k : Nat) (hk : k ≤ 30) : (1 : Int) ≤ 2 ^ k ∧ (2 : Int) ^ k ≤ 2 ^ 30 :=
  ⟨one_le_pow₀ (by decide), pow_le_pow_right₀ (by decide) hk⟩

/-- What `AlignInt32` computes for the alignment `2 ^ k`: the wrapped sum, rounded down to
a multiple of `2 ^ k`. -/
theorem alignInt32_eq (value : Int) (k : Nat) (hk : k ≤ 30) :
    AlignInt32 value (2 ^ k) =
      wrapInt32 (value + (2 ^ k - 1)) - wrapInt32 (value + (2 ^ k - 1)) % 2 ^ k := by
  have hb := two_pow_bounds k hk
  have hw : wrapInt32 (2 ^ k - 1) = 2 ^ k - 1 :=
    wrapInt32_of_isInt32 ⟨by simp only [Int.reducePow] at *; omega,
      by simp only [Int.reducePow] at *; omega⟩
  unfold AlignInt32
  rw [andInt32_not_mask _ k hk (wrapInt32_isInt32 _), hw]

/-- Rounding down to a multiple of a positive number. -/
theorem sub_emod_facts (s a : Int) (ha : 0 < a) :
    a ∣ s - s % a ∧ s - s % a ≤ s ∧ s < s - s % a + a := by
  have h1 := Int.emod_nonneg s (Int.ne_of_gt ha)
  have h2 := Int.emod_lt_of_pos s ha
  refine ⟨⟨s / a, ?_⟩, by omega, by omega⟩
  have := Int.emod_add_ediv s a
  linarith

/-- Without overflow of the sum, `AlignInt32` is a multiple of `2 ^ k` in
`[value, value + 2 ^ k)`. -/
theorem alignInt32_noWrap (value : Int) (k : Nat) (hk : k ≤ 30) (hv : IsInt32 value)
    (hno : value + 2 ^ k - 1 ≤ 2 ^ 31 - 1) :
    (2 : Int) ^ k ∣ AlignInt32 value (2 ^ k) ∧ value ≤ AlignInt32 value (2 ^ k) ∧
      AlignInt32 value (2 ^ k) < value + 2 ^ k := by
  have hb := two_pow_bounds k hk
  have hw : wrapInt32 (value + (2 ^ k - 1)) = value + (2 ^ k - 1) := by
    unfold IsInt32 at hv
    exact wrapInt32_of_isInt32 ⟨by simp only [Int.reducePow] at *; omega,
      by simp only [Int.reducePow] at *; omega⟩
  rw [alignInt32_eq value k hk, hw]
  have hf := sub_emod_facts (value + (2 ^ k - 1)) (2 ^ k) (by omega)
  refine ⟨hf.1, ?_, ?_⟩
  · have := hf.2.2
    omega
  · have := hf.2.1
    omega


/-- C11 (counterexample). `AlignInt32(2147483647, 8)` is `-2147483648`: the `int32` sum
`value + 7` wraps, and the result is below `value`, so it is not the smallest multiple of 8
greater than or equal to `value`. -/
theorem alignInt32_wraps_at_max_int32 :
    IsInt32 2147483647 ∧ AlignInt32 2147483647 8 = -2147483648 ∧
    ¬ (2147483647 ≤ AlignInt32 2147483647 8) := by
  decide

/-- C11 (amended). `AlignInt32` rounds up to the alignment boundary: for every `int32` value
and every `int32` power of two `2 ^ k` (so `k ≤ 30`) with
`value + 2 ^ k - 1 ≤ 2 ^ 31 - 1`, `AlignInt32(value, 2 ^ k)` is a multiple of `2 ^ k`, is
greater than or equal to `value`, and is at most every multiple of `2 ^ k` that is greater
than or equal to `value`; in particular `AlignInt32(5, 8) = 8`, `AlignInt32(8, 8) = 8` and
`AlignInt32(0, 64) = 0`. -/
theorem alignInt32_rounds_up (value : Int) (k : Nat) (hk : k ≤ 30) (hv : IsInt32 value)
    (hno : value + 2 ^ k - 1 ≤ 2 ^ 31 - 1) :
    ((2 : Int) ^ k ∣ AlignInt32 value (2 ^ k) ∧ value ≤ AlignInt32 value (2 ^ k) ∧
      ∀ r : Int, (2 : Int) ^ k ∣ r → value ≤ r → AlignInt32 value (2 ^ k) ≤ r) ∧
    AlignInt32 5 8 = 8 ∧ AlignInt32 8 8 = 8 ∧ AlignInt32 0 64 = 0 := by
  have h := alignInt32_noWrap value k hk hv hno
  have hb := two_pow_bounds k hk
  refine ⟨⟨h.1, h.2.1, ?_⟩, by decide, by decide, by decide⟩
  intro r hr hvr
  by_contra hlt
  have hpos : 0 < AlignInt32 value (2 ^ k) - r := by omega
  have hle := Int.le_of_dvd hpos (Int.dvd_sub h.1 hr)
  have := h.2.2
  omega

/-- Witness for C11 (amended): value 5, alignment `2 ^ 3 = 8`; 16 is another multiple of 8
above 5. -/
theorem alignInt32_rounds_up_witness :
    ((2 : Int) ^ 3 ∣ AlignInt32 5 (2 ^ 3) ∧ (5 : Int) ≤ AlignInt32 5 (2 ^ 3) ∧
      AlignInt32 5 (2 ^ 3) ≤ 16) ∧
    AlignInt32 5 8 = 8 ∧ AlignInt32 8 8 = 8 ∧ AlignInt32 0 64 = 0 :=
  have h := alignInt32_rounds_up 5 3 (by decide) (by decide) (by decide)
  ⟨⟨h.1.1, h.1.2.1, h.1.2.2 16 (by decide) (by decide)⟩, h.2⟩

/-- C19. `AlignInt32` under 32-bit wrap-around, for every `int32` value, negative ones
included, and every `int32` power of two `2 ^ k` (`k ≤ 30`): the result is an `int32` whose
low `k` bits are clear, that is a multiple of `2 ^ k`; aligning the result again gives the
same result whenever the result plus `2 ^ k - 1` does not exceed `2 ^ 31 - 1`; and whenever
`value + 2 ^ k - 1 ≤ 2 ^ 31 - 1` the result `r` satisfies `value ≤ r < value + 2 ^ k`. -/
theorem alignInt32_under_wraparound (value : Int) (k : Nat) (hk : k ≤ 30)
    (hv : IsInt32 value) :
    IsInt32 (AlignInt32 value (2 ^ k)) ∧
    toUnsigned 32 (AlignInt32 value (2 ^ k)) % 2 ^ k = 0 ∧
    (2 : Int) ^ k ∣ AlignInt32 value (2 ^ k) ∧
    (AlignInt32 value (2 ^ k) + 2 ^ k - 1 ≤ 2 ^ 31 - 1 →
      AlignInt32 (AlignInt32 value (2 ^ k)) (2 ^ k) = AlignInt32 value (2 ^ k)) ∧
    (value + 2 ^ k - 1 ≤ 2 ^ 31 - 1 →
      value ≤ AlignInt32 value (2 ^ k) ∧ AlignInt32 value (2 ^ k) < value + 2 ^ k) := by
  have hb := two_pow_bounds k hk
  have hs := wrapInt32_isInt32 (value + (2 ^ k - 1))
  have hf := sub_emod_facts (wrapInt32 (value + (2 ^ k - 1))) (2 ^ k) (by omega)
  have hdvd : (2 : Int) ^ k ∣ AlignInt32 value (2 ^ k) := by
    rw [alignInt32_eq value k hk]
    exact hf.1
  have hr : IsInt32 (AlignInt32 value (2 ^ k)) := by
    unfold AlignInt32 andInt32
    exact wrapInt32_isInt32 _
  refine ⟨hr, ?_, hdvd, ?_, ?_⟩
  · obtain ⟨c, hc⟩ := hdvd
    rw [hc]
    unfold toUnsigned
    clear hc hf hs hb hr hv
    interval_cases k <;> simp only [Nat.reducePow, Int.reducePow] <;> omega
  · intro hno
    have h2 := alignInt32_noWrap (AlignInt32 value (2 ^ k)) k hk hr hno
    obtain ⟨c, hc⟩ := hdvd
    obtain ⟨d, hd⟩ := h2.1
    have h3 := h2.2.1
    have h4 := h2.2.2
    rw [hd, hc] at h3 h4
    rw [hd, hc]
    have hcd : d = c := by
      have hpos : (0 : Int) < 2 ^ k := by omega
      have h5 : 2 ^ k * c ≤ 2 ^ k * d := h3
      have h6 : 2 ^ k * d < 2 ^ k * (c + 1) := by linarith
      have h7 := le_of_mul_le_mul_left h5 hpos
      have h8 := lt_of_mul_lt_mul_left h6 (le_of_lt hpos)
      omega
    rw [hcd]
  · intro hno
    exact (alignInt32_noWrap value k hk hv hno).2

/-- Witness for C19: value `-5`, alignment `2 ^ 3 = 8`, where the result is 0. -/
theorem alignInt32_under_wraparound_witness :
    IsInt32 (AlignInt32 (-5) (2 ^ 3)) ∧
    toUnsigned 32 (AlignInt32 (-5) (2 ^ 3)) % 2 ^ 3 = 0 ∧
    (2 : Int) ^ 3 ∣ AlignInt32 (-5) (2 ^ 3) ∧
    AlignInt32 (AlignInt32 (-5) (2 ^ 3)) (2 ^ 3) = AlignInt32 (-5) (2 ^ 3) ∧
    (-5 : Int) ≤ AlignInt32 (-5) (2 ^ 3) ∧ AlignInt32 (-5) (2 ^ 3) < -5 + 2 ^ 3 :=
  have h := alignInt32_under_wraparound (-5) 3 (by decide) (by decide)
  ⟨h.1, h.2.1, h.2.2.1, h.2.2.2.1 (by decide), h.2.2.2.2 (by decide)⟩


/-! ## Powers of two -/

/-- An odd number and its predecessor agree on every bit above bit 0. -/
theorem testBit_pred_of_odd (q j : Nat) (hq : q % 2 = 1) :
    (q - 1).testBit (j + 1) = q.testBit (j + 1) := by
  rw [Nat.testBit_succ, Nat.testBit_succ]
  have : (q - 1) / 2 = q / 2 := by omega
  rw [this]

/-- The and of an `n`-bit number `2 ^ t * q`, `q` odd, with its two's-complement negation
is its lowest set bit `2 ^ t`. -/
theorem and_neg_eq_lowest_bit (t q n : Nat) (hq : q % 2 = 1) (h : 2 ^ t * q < 2 ^ n) :
    (2 ^ t * q) &&& (2 ^ n - 2 ^ t * q) = 2 ^ t := by
  have htpos := Nat.two_pow_pos t
  have hq1 : 1 ≤ q := by omega
  have hle : 2 ^ t ≤ 2 ^ t * q := Nat.le_mul_of_pos_right _ hq1
  have htn : t < n := by
    by_contra hc
    have : 2 ^ n ≤ 2 ^ t := Nat.pow_le_pow_right (by decide) (by omega)
    omega
  have e1 : 2 ^ n - 2 ^ t * q = 2 ^ n - ((2 ^ t * (q - 1) + (2 ^ t - 1)) + 1) := by
    have : 2 ^ t * q = 2 ^ t * (q - 1) + 2 ^ t := by
      have hq' : q = (q - 1) + 1 := by omega
      conv_lhs => rw [hq', Nat.mul_add, Nat.mul_one]
    omega
  have hlt : 2 ^ t * (q - 1) + (2 ^ t - 1) < 2 ^ n := by
    have : 2 ^ t * q = 2 ^ t * (q - 1) + 2 ^ t := by
      have hq' : q = (q - 1) + 1 := by omega
      conv_lhs => rw [hq', Nat.mul_add, Nat.mul_one]
    omega
  apply Nat.eq_of_testBit_eq
  intro i
  rw [Nat.testBit_and, e1, Nat.testBit_two_pow_sub_succ hlt,
    Nat.testBit_mul_pow_two_add _ (by omega), Nat.testBit_mul_pow_two, Nat.testBit_two_pow,
    Nat.testBit_two_pow_sub_one]
  by_cases hit : i < t
  · have h1 : ¬ i ≥ t := by omega
    have h2 : ¬ t = i := by omega
    simp [hit, h1, h2]
  · by_cases hie : i = t
    · subst hie
      have hq0 : q.testBit 0 = true := by simp [Nat.testBit_zero, hq]
      have hq0' : (q - 1).testBit 0 = false := by
        simp only [Nat.testBit_zero]
        have : (q - 1) % 2 = 0 := by omega
        simp [this]
      simp [htn, hq0, hq0']
    · have h1 : i ≥ t := by omega
      have h2 : ¬ t = i := fun h => hie h.symm
      obtain ⟨j, hj⟩ : ∃ j, i - t = j + 1 := ⟨i - t - 1, by omega⟩
      simp only [hit, h1, h2, hj, testBit_pred_of_odd q j hq, if_false, decide_True,
        decide_False, Bool.true_and]
      cases q.testBit (j + 1) <;> simp


set_option maxRecDepth 100000 in
theorem isPowerOfTwo_two_pow : ∀ k : Nat, k ≤ 62 → IsPowerOfTwo (2 ^ k) = true := by
  decide

/-- The operands of the and in `IsPowerOfTwo`, as bit patterns, for a positive `int64`. -/
theorem isPowerOfTwo_operands (v : Nat) (h0 : 0 < v) (h1 : v < 2 ^ 63) :
    toUnsigned 64 (v : Int) = v ∧
    toUnsigned 64 (wrapInt64 (notInt64 (v : Int) + 1)) = 2 ^ 64 - v := by
  unfold toUnsigned notInt64 wrapInt64
  simp only [Nat.reducePow, Int.reducePow] at *
  constructor
  · omega
  · have e : (((-(v : Int) - 1 + 9223372036854775808) % 18446744073709551616 -
        9223372036854775808 + 1 + 9223372036854775808) % 18446744073709551616 -
        9223372036854775808) = -(v : Int) := by omega
    rw [e]
    omega

/-- C12. `IsPowerOfTwo` decides powers of two: for every `int64` value,
`IsPowerOfTwo(value)` is true if and only if `value = 2 ^ k` for some `k ≤ 62`; it is false
for zero and for every negative input, the minimum `int64` included; and
`IsPowerOfTwo(1) = true`, `IsPowerOfTwo(0) = IsPowerOfTwo(3) = IsPowerOfTwo(-4) = false`. -/
theorem isPowerOfTwo_iff (value : Int) (hv : IsInt64 value) :
    (IsPowerOfTwo value = true ↔ ∃ k : Nat, k ≤ 62 ∧ value = 2 ^ k) ∧
    (value ≤ 0 → IsPowerOfTwo value = false) ∧
    IsPowerOfTwo 1 = true ∧ IsPowerOfTwo 0 = false ∧ IsPowerOfTwo 3 = false ∧
    IsPowerOfTwo (-4) = false ∧ IsPowerOfTwo (-9223372036854775808) = false := by
  refine ⟨⟨?_, ?_⟩, ?_, by decide, by decide, by decide, by decide, by decide⟩
  · intro h
    unfold IsPowerOfTwo at h
    simp only [Bool.and_eq_true, decide_eq_true_eq] at h
    obtain ⟨hpos, hand⟩ := h
    unfold IsInt64 at hv
    obtain ⟨v, rfl⟩ : ∃ v : Nat, value = (v : Int) := ⟨value.toNat, by omega⟩
    have hv0 : 0 < v := by omega
    have hv1 : v < 2 ^ 63 := by simp only [Nat.reducePow, Int.reducePow] at *; omega
    have hops := isPowerOfTwo_operands v hv0 hv1
    unfold andInt64 at hand
    rw [hops.1, hops.2] at hand
    obtain ⟨t, q, hq, hvq⟩ := Nat.exists_eq_two_pow_mul_odd (Nat.pos_iff_ne_zero.mp hv0)
    have hq' : q % 2 = 1 := Nat.odd_iff.mp hq
    have hlow : v &&& (2 ^ 64 - v) = 2 ^ t := by
      rw [hvq]
      exact and_neg_eq_lowest_bit t q 64 hq' (by rw [← hvq]; omega)
    rw [hlow] at hand
    have hle : 2 ^ t ≤ v := by
      rw [hvq]
      exact Nat.le_mul_of_pos_right _ (by omega)
    have ht : t ≤ 62 := by
      by_contra hc
      have : 2 ^ 63 ≤ 2 ^ t := Nat.pow_le_pow_right (by decide) (by omega)
      omega
    refine ⟨t, ht, ?_⟩
    have hcast : ((2 ^ t : Nat) : Int) = (2 : Int) ^ t := by push_cast; rfl
    rw [← hcast]
    generalize 2 ^ t = p at *
    unfold wrapInt64 at hand
    simp only [Nat.reducePow, Int.reducePow] at *
    omega
  · rintro ⟨k, hk, rfl⟩
    exact isPowerOfTwo_two_pow k hk
  · intro hle
    unfold IsPowerOfTwo
    have : ¬ value > 0 := by omega
    simp [this]

/-- Witness for C12: the value `2 ^ 62`, the largest `int64` power of two. -/
theorem isPowerOfTwo_iff_witness :
    (IsPowerOfTwo 4611686018427387904 = true ↔
      ∃ k : Nat, k ≤ 62 ∧ (4611686018427387904 : Int) = 2 ^ k) ∧
    ((4611686018427387904 : Int) ≤ 0 → IsPowerOfTwo 4611686018427387904 = false) ∧
    IsPowerOfTwo 1 = true ∧ IsPowerOfTwo 0 = false ∧ IsPowerOfTwo 3 = false ∧
    IsPowerOfTwo (-4) = false ∧ IsPowerOfTwo (-9223372036854775808) = false :=
  isPowerOfTwo_iff 4611686018427387904 (by decide)


/-! ## The two builds -/

/-- On an access that starts at or after the base and ends within the stated capacity the
checked `BoundsCheck` returns like the unchecked one. -/
theorem boundsCheck_debug_eq_release (index length myLength : Int)
    (h0 : 0 ≤ index) (h1 : 0 ≤ length) (h2 : index + length ≤ myLength) :
    BoundsCheck .debug index length myLength = BoundsCheck .release index length myLength := by
  rw [boundsCheck_ok_of_inRange .debug index length myLength (by omega) h2,
    boundsCheck_ok_of_inRange .release index length myLength (by omega) h2]

/-- C13 (counterexample). `PutBytesArray(0, arr, 0, 1)` into a 16-byte buffer from a slice
of `2 ^ 31` bytes whose first byte is 5 is in range (`0 ≤ 0`, `0 ≤ 1`, `0 + 1 ≤ 16`,
`0 + 1 ≤ len(arr)`), yet the checked build stops with the bounds failure, because it
states the capacity `int32(len(*arr)) = -2147483648` to the check, while the unchecked
build returns and leaves the byte 5 at position 0 of the buffer. -/
theorem builds_disagree_on_slice_of_2pow31_bytes :
    (0 : Int) ≤ 0 ∧ (0 : Int) ≤ 1 ∧
    (0 : Int) + 1 ≤ (Buffer.mk 4096 16).length ∧
    (0 : Int) + 1 ≤ ((Slice.mk 8192 2147483648).len : Int) ∧
    (Buffer.mk 4096 16).PutBytesArray .debug (Mem.write (fun _ => 0) 8192 5) 0
        (Slice.mk 8192 2147483648) 0 1 = .error (.fatal 0 1 (-2147483648)) ∧
    ((Buffer.mk 4096 16).PutBytesArray .release (Mem.write (fun _ => 0) 8192 5) 0
        (Slice.mk 8192 2147483648) 0 1).map (fun m' => (Buffer.mk 4096 16).bytesAt m' 0 1) =
      .ok [5] := by
  refine ⟨by decide, by decide, by decide, by decide, rfl, rfl⟩

/-- C13 (amended). The two bounds-check modes agree on valid accesses.  For an access with
`0 ≤ offset`, `0 ≤ width` and `offset + width ≤ capacity` the checked `BoundsCheck` does not
halt and the unchecked one never does; hence every buffer operation whose accesses are in
range (of the buffer's capacity; for the source of `PutBytes` of the capacity of
`srcBuffer`; for the source of `PutBytesArray` of `len(arr)`, the slice having fewer than
`2 ^ 31` bytes; the width of `GetBytes` being `len(b)`) returns the same result and leaves
the same memory in the checked build as in the unchecked build. -/
theorem builds_agree_on_inRange_accesses (buf srcBuffer : Buffer) (m : Mem) (o : Int)
    (v : Nat) (x e u : Int) (srcOffset length : Int) (b arr : Slice) (al : Allocator)
    (dest : BytesBuffer) (ho : 0 ≤ o) :
    (∀ width capacity : Int, 0 ≤ width → o + width ≤ capacity →
      BoundsCheck .debug o width capacity = .ok () ∧
      BoundsCheck .release o width capacity = .ok ()) ∧
    (o + 1 ≤ buf.length →
      buf.GetUInt8 .debug m o = buf.GetUInt8 .release m o ∧
      buf.PutUInt8 .debug m o v = buf.PutUInt8 .release m o v ∧
      buf.PutInt8 .debug m o x = buf.PutInt8 .release m o x) ∧
    (o + 2 ≤ buf.length →
      buf.GetUInt16 .debug m o = buf.GetUInt16 .release m o ∧
      buf.PutUInt16 .debug m o v = buf.PutUInt16 .release m o v) ∧
    (o + 4 ≤ buf.length →
      buf.GetInt32 .debug m o = buf.GetInt32 .release m o ∧
      buf.PutInt32 .debug m o x = buf.PutInt32 .release m o x ∧
      buf.GetInt32Volatile .debug m o = buf.GetInt32Volatile .release m o ∧
      buf.PutInt32Ordered .debug m o x = buf.PutInt32Ordered .release m o x ∧
      buf.PutIntOrdered .debug m o x = buf.PutIntOrdered .release m o x ∧
      buf.CompareAndSetInt32 .debug m o e u = buf.CompareAndSetInt32 .release m o e u) ∧
    (o + 8 ≤ buf.length →
      buf.GetInt64 .debug m o = buf.GetInt64 .release m o ∧
      buf.PutInt64 .debug m o x = buf.PutInt64 .release m o x ∧
      buf.GetInt64Volatile .debug m o = buf.GetInt64Volatile .release m o ∧
      buf.PutInt64Ordered .debug m o x = buf.PutInt64Ordered .release m o x ∧
      buf.GetAndAddInt64 .debug m o x = buf.GetAndAddInt64 .release m o x ∧
      buf.CompareAndSetInt64 .debug m o e u = buf.CompareAndSetInt64 .release m o e u) ∧
    (0 ≤ length → o + length ≤ buf.length →
      buf.GetBytesArray .debug o length = buf.GetBytesArray .release o length ∧
      buf.WriteBytes .debug al m dest o length = buf.WriteBytes .release al m dest o length ∧
      (0 ≤ srcOffset → srcOffset + length ≤ srcBuffer.length →
        buf.PutBytes .debug m o srcBuffer srcOffset length =
          buf.PutBytes .release m o srcBuffer srcOffset length) ∧
      (0 ≤ srcOffset → srcOffset + length ≤ (arr.len : Int) → (arr.len : Int) < 2 ^ 31 →
        buf.PutBytesArray .debug m o arr srcOffset length =
          buf.PutBytesArray .release m o arr srcOffset length)) ∧
    (o + (b.len : Int) ≤ buf.length →
      buf.GetBytes .debug m o b = buf.GetBytes .release m o b) := by
  refine ⟨?_, ?_, ?_, ?_, ?_, ?_, ?_⟩
  · intro width capacity hw hc
    exact ⟨boundsCheck_ok_of_inRange .debug o width capacity (by omega) hc,
      boundsCheck_ok_of_inRange .release o width capacity (by omega) hc⟩
  · intro hc
    have hb := boundsCheck_debug_eq_release o 1 buf.length ho (by decide) hc
    simp only [Buffer.GetUInt8, Buffer.PutUInt8, Buffer.PutInt8, hb, and_self]
  · intro hc
    have hb := boundsCheck_debug_eq_release o 2 buf.length ho (by decide) hc
    simp only [Buffer.GetUInt16, Buffer.PutUInt16, hb, and_self]
  · intro hc
    have hb := boundsCheck_debug_eq_release o 4 buf.length ho (by decide) hc
    simp only [Buffer.GetInt32, Buffer.PutInt32, Buffer.GetInt32Volatile,
      Buffer.PutInt32Ordered, Buffer.PutIntOrdered, Buffer.CompareAndSetInt32, hb, and_self]
  · intro hc
    have hb := boundsCheck_debug_eq_release o 8 buf.length ho (by decide) hc
    simp only [Buffer.GetInt64, Buffer.PutInt64, Buffer.GetInt64Volatile,
      Buffer.PutInt64Ordered, Buffer.GetAndAddInt64, Buffer.CompareAndSetInt64, hb, and_self]
  · intro hl hc
    have hb := boundsCheck_debug_eq_release o length buf.length ho hl hc
    refine ⟨?_, ?_, ?_, ?_⟩
    · simp only [Buffer.GetBytesArray, hb]
    · simp only [Buffer.WriteBytes, hb]
    · intro hs hsc
      have hb2 := boundsCheck_debug_eq_release srcOffset length srcBuffer.length hs hl hsc
      simp only [Buffer.PutBytes, hb, hb2]
    · intro hs hsc hlen
      have hw : wrapInt32 (arr.len : Int) = (arr.len : Int) :=
        wrapInt32_of_isInt32 ⟨by omega, hlen⟩
      have hb2 := boundsCheck_debug_eq_release srcOffset length (wrapInt32 arr.len) hs hl
        (by rw [hw]; exact hsc)
      simp only [Buffer.PutBytesArray, hb, hb2]
  · intro hc
    have hb : BoundsCheck .debug o (wrapInt32 b.len) buf.length =
        BoundsCheck .release o (wrapInt32 b.len) buf.length := by
      by_cases hlt : buf.length < 2 ^ 31
      · have hw : wrapInt32 (b.len : Int) = (b.len : Int) :=
          wrapInt32_of_isInt32 ⟨by omega, by omega⟩
        rw [hw]
        exact boundsCheck_debug_eq_release o b.len buf.length ho (by omega) hc
      · have h1 := (wrapInt32_isInt32 (o + wrapInt32 (b.len : Int))).2
        simp only [BoundsCheck]
        rw [if_neg (by omega)]
    simp only [Buffer.GetBytes, hb]

/-- Witness for C13 (amended): a 16-byte buffer at offset 3, a 16-byte source buffer,
slices of 4 and 8 bytes, a sink of capacity 8, widths 4 and (for the last part)
`len(b) = 4`. -/
theorem builds_agree_on_inRange_accesses_witness :
    (BoundsCheck .debug 3 4 16 = .ok () ∧ BoundsCheck .release 3 4 16 = .ok ()) ∧
    (Buffer.mk 4096 16).GetUInt8 .debug (fun _ => 7) 3 =
      (Buffer.mk 4096 16).GetUInt8 .release (fun _ => 7) 3 ∧
    (Buffer.mk 4096 16).PutUInt16 .debug (fun _ => 7) 3 200 =
      (Buffer.mk 4096 16).PutUInt16 .release (fun _ => 7) 3 200 ∧
    (Buffer.mk 4096 16).CompareAndSetInt32 .debug (fun _ => 7) 3 0 1 =
      (Buffer.mk 4096 16).CompareAndSetInt32 .release (fun _ => 7) 3 0 1 ∧
    (Buffer.mk 4096 16).GetAndAddInt64 .debug (fun _ => 7) 3 (-7) =
      (Buffer.mk 4096 16).GetAndAddInt64 .release (fun _ => 7) 3 (-7) ∧
    ((Buffer.mk 4096 16).GetBytesArray .debug 3 4 =
        (Buffer.mk 4096 16).GetBytesArray .release 3 4 ∧
      (Buffer.mk 4096 16).WriteBytes .debug (Allocator.mk 65536 64) (fun _ => 7)
          (BytesBuffer.mk 16384 1 8 0) 3 4 =
        (Buffer.mk 4096 16).WriteBytes .release (Allocator.mk 65536 64) (fun _ => 7)
          (BytesBuffer.mk 16384 1 8 0) 3 4 ∧
      (Buffer.mk 4096 16).PutBytes .debug (fun _ => 7) 3 (Buffer.mk 8192 16) 2 4 =
        (Buffer.mk 4096 16).PutBytes .release (fun _ => 7) 3 (Buffer.mk 8192 16) 2 4 ∧
      (Buffer.mk 4096 16).PutBytesArray .debug (fun _ => 7) 3 (Slice.mk 12288 8) 2 4 =
        (Buffer.mk 4096 16).PutBytesArray .release (fun _ => 7) 3 (Slice.mk 12288 8) 2 4) ∧
    (Buffer.mk 4096 16).GetBytes .debug (fun _ => 7) 3 (Slice.mk 12288 4) =
      (Buffer.mk 4096 16).GetBytes .release (fun _ => 7) 3 (Slice.mk 12288 4) :=
  have h := builds_agree_on_inRange_accesses (Buffer.mk 4096 16) (Buffer.mk 8192 16)
    (fun _ => 7) 3 200 (-7) 0 1 2 4 (Slice.mk 12288 4) (Slice.mk 12288 8)
    (Allocator.mk 65536 64) (BytesBuffer.mk 16384 1 8 0) (by decide)
  have hbulk := h.2.2.2.2.2.1 (by decide) (by decide)
  ⟨h.1 4 16 (by decide) (by decide),
   (h.2.1 (by decide)).1,
   (h.2.2.1 (by decide)).2,
   (h.2.2.2.1 (by decide)).2.2.2.2.2,
   (h.2.2.2.2.1 (by decide)).2.2.2.2.1,
   ⟨hbulk.1, hbulk.2.1, hbulk.2.2.1 (by decide) (by decide),
     hbulk.2.2.2 (by decide) (by decide) (by decide)⟩,
   h.2.2.2.2.2.2 (by decide)⟩


/-! ## Ordered and volatile variants -/

/-- C14. In the sequential model the ordered and volatile variants compute what their plain
counterparts compute, in both builds and at every offset: `GetInt32Volatile(o)` is
`GetInt32(o)`, `GetInt64Volatile(o)` is `GetInt64(o)`, `PutInt32Ordered(o, v)` leaves the
memory `PutInt32(o, v)` leaves, `PutInt64Ordered(o, v)` the memory `PutInt64(o, v)` leaves,
and `PutIntOrdered(o, v)` the memory `PutInt32` leaves for `v` truncated to `int32`; at an
in-range `int32` offset `PutIntOrdered` writes four bytes only: `GetInt32(o)` after it
returns the truncated `v`, and every byte of the buffer outside `[o, o + 4)` is unchanged,
while `PutInt64Ordered` of an `int64` `v` is read back whole by `GetInt64(o)`. -/
theorem ordered_and_volatile_as_plain (bc : Build) (buf : Buffer) (m : Mem) (o v : Int)
    (ho : IsInt32 o) :
    buf.GetInt32Volatile bc m o = buf.GetInt32 bc m o ∧
    buf.GetInt64Volatile bc m o = buf.GetInt64 bc m o ∧
    buf.PutInt32Ordered bc m o v = buf.PutInt32 bc m o v ∧
    buf.PutInt64Ordered bc m o v = buf.PutInt64 bc m o v ∧
    buf.PutIntOrdered bc m o v = buf.PutInt32 bc m o (wrapInt32 v) ∧
    (o + 4 ≤ buf.length →
      (buf.PutIntOrdered bc m o v).bind (fun m' => buf.GetInt32 bc m' o) =
        .ok (wrapInt32 v) ∧
      ∀ j : Int, IsInt32 j → j < o ∨ o + 4 ≤ j →
        (buf.PutIntOrdered bc m o v).map (fun m' => buf.byteAt m' j) =
          .ok (buf.byteAt m j)) ∧
    (o + 8 ≤ buf.length → IsInt64 v →
      (buf.PutInt64Ordered bc m o v).bind (fun m' => buf.GetInt64 bc m' o) = .ok v) := by
  refine ⟨rfl, rfl, rfl, rfl, rfl, ?_, ?_⟩
  · intro hc
    have hb := boundsCheck_ok_of_inRange bc o 4 buf.length (by have := ho.1; omega) hc
    simp only [Buffer.PutIntOrdered, Buffer.GetInt32, hb, Except.bind, Except.map,
      wrapInt32_load_store _ _ _ (wrapInt32_isInt32 v)]
    refine ⟨trivial, ?_⟩
    intro j hj hout
    rw [byteAt_store_outside buf m o j 4 _ ho hj (by decide) (by simpa using hout)]
  · intro hc hv
    have hb := boundsCheck_ok_of_inRange bc o 8 buf.length (by have := ho.1; omega) hc
    simp only [Buffer.PutInt64Ordered, Buffer.GetInt64, hb, Except.bind,
      wrapInt64_load_store _ _ _ hv]

/-- Witness for C14: a 16-byte buffer at offset 3; `PutIntOrdered` of `2 ^ 32 + 5` stores 5
and leaves byte 7 alone. -/
theorem ordered_and_volatile_as_plain_witness :
    (Buffer.mk 4096 16).GetInt32Volatile .debug (fun _ => 7) 3 =
      (Buffer.mk 4096 16).GetInt32 .debug (fun _ => 7) 3 ∧
    (Buffer.mk 4096 16).PutIntOrdered .debug (fun _ => 7) 3 4294967301 =
      (Buffer.mk 4096 16).PutInt32 .debug (fun _ => 7) 3 (wrapInt32 4294967301) ∧
    ((Buffer.mk 4096 16).PutIntOrdered .debug (fun _ => 7) 3 4294967301).bind
      (fun m' => (Buffer.mk 4096 16).GetInt32 .debug m' 3) = .ok 5 ∧
    ((Buffer.mk 4096 16).PutIntOrdered .debug (fun _ => 7) 3 4294967301).map
      (fun m' => (Buffer.mk 4096 16).byteAt m' 7) = .ok 7 ∧
    ((Buffer.mk 4096 16).PutInt64Ordered .debug (fun _ => 7) 3 4294967301).bind
      (fun m' => (Buffer.mk 4096 16).GetInt64 .debug m' 3) = .ok 4294967301 :=
  have h := ordered_and_volatile_as_plain .debug (Buffer.mk 4096 16) (fun _ => 7) 3
    4294967301 (by decide)
  have h4 := h.2.2.2.2.2.1 (by decide)
  ⟨h.1, h.2.2.2.2.1, h4.1, h4.2 7 (by decide) (by decide),
   h.2.2.2.2.2.2 (by decide) (by decide)⟩

/-! ## Empty source slice -/

/-- C15 (counterexample). `PutBytesArray(3, arr, 0, 0)` with `arr` the empty slice, into a
16-byte buffer, does not complete: in the checked build and in the unchecked build it stops
with the run-time panic of `&(*arr)[0]`. -/
theorem putBytesArray_empty_slice_panics :
    (Buffer.mk 4096 16).PutBytesArray .debug (fun _ => 0) 3 (Slice.mk 8192 0) 0 0 =
      .error (.panic "runtime error: index out of range [0] with length 0") ∧
    (Buffer.mk 4096 16).PutBytesArray .release (fun _ => 0) 3 (Slice.mk 8192 0) 0 0 =
      .error (.panic "runtime error: index out of range [0] with length 0") ∧
    ((Buffer.mk 4096 16).PutBytesArray .debug (fun _ => 0) 3 (Slice.mk 8192 0) 0 0).isOk =
      false := by
  refine ⟨rfl, rfl, rfl⟩

/-- C15 (amended). An empty source slice given to `PutBytesArray`: for every buffer and every
index with `0 ≤ index ≤ capacity`, `PutBytesArray(index, arr, 0, 0)` with `arr` the empty
slice passes both bounds checks (no bounds failure) and then stops with the run-time panic
of indexing element 0 of an empty slice, in the checked and in the unchecked build. -/
theorem putBytesArray_empty_slice (bc : Build) (buf : Buffer) (m : Mem) (index : Int)
    (arr : Slice) (h0 : 0 ≤ index) (h1 : index ≤ buf.length) (hempty : arr.len = 0) :
    BoundsCheck bc index 0 buf.length = .ok () ∧
    BoundsCheck bc 0 0 (wrapInt32 arr.len) = .ok () ∧
    buf.PutBytesArray bc m index arr 0 0 =
      .error (.panic "runtime error: index out of range [0] with length 0") := by
  have hb1 := boundsCheck_ok_of_inRange bc index 0 buf.length (by omega) (by omega)
  have hw : wrapInt32 ((arr.len : Nat) : Int) = 0 := by rw [hempty]; rfl
  have hb2 := boundsCheck_ok_of_inRange bc 0 0 (wrapInt32 arr.len) (by decide)
    (by rw [hw]; decide)
  refine ⟨hb1, hb2, ?_⟩
  simp only [Buffer.PutBytesArray, hb1, hb2, Slice.firstElem]
  simp only [hempty, Nat.lt_irrefl, if_false]

/-- Witness for C15 (amended): index 3 of a 16-byte buffer, unchecked build. -/
theorem putBytesArray_empty_slice_witness :
    BoundsCheck .release 3 0 (Buffer.mk 4096 16).length = .ok () ∧
    BoundsCheck .release 0 0 (wrapInt32 (Slice.mk 8192 0).len) = .ok () ∧
    (Buffer.mk 4096 16).PutBytesArray .release (fun _ => 0) 3 (Slice.mk 8192 0) 0 0 =
      .error (.panic "runtime error: index out of range [0] with length 0") :=
  putBytesArray_empty_slice .release (Buffer.mk 4096 16) (fun _ => 0) 3 (Slice.mk 8192 0)
    (by decide) (by decide) rfl


/-! ## Byte order -/

/-- A load is the little-endian sum of the bytes it covers. -/
theorem load_eq_sum (n : Nat) : ∀ (m : Mem) (a : Nat),
    load m a n = Finset.sum (Finset.range n) (fun i => (m ((a + i) % 2 ^ 64)).val * 256 ^ i) := by
  induction n with
  | zero => intro m a; simp [load]
  | succ n ih =>
      intro m a
      rw [Finset.sum_range_succ', load, ih m (a + 1), Finset.mul_sum]
      simp only [Nat.add_zero, Nat.pow_zero, Nat.mul_one]
      rw [Nat.add_comm]
      congr 1
      apply Finset.sum_congr rfl
      intro i _
      have e : a + 1 + i = a + (i + 1) := by omega
      rw [e, Nat.pow_succ]
      ring

/-- In range, a typed load is the little-endian sum of the buffer's bytes. -/
theorem load_eq_sum_byteAt (buf : Buffer) (m : Mem) (o : Int) (n : Nat) :
    load m (unsafeAdd buf.bufferPtr o) n =
      Finset.sum (Finset.range n) (fun i => (buf.byteAt m (o + (i : Int))).val * 256 ^ i) := by
  rw [load_eq_sum]
  apply Finset.sum_congr rfl
  intro i _
  unfold Buffer.byteAt
  rw [unsafeAdd_add]

/-- A load depends on its address modulo `2 ^ 64` only. -/
theorem load_mod_addr (m : Mem) (x k : Nat) : load m x k = load m (x % 2 ^ 64) k := by
  rw [load_eq_sum, load_eq_sum]
  apply Finset.sum_congr rfl
  intro i _
  have e : (x % 2 ^ 64 + i) % 2 ^ 64 = (x + i) % 2 ^ 64 := by omega
  rw [e]

/-- The byte a store of `n` bytes leaves at its `i`-th address is byte `i` of the value. -/
theorem store_get (n : Nat) : ∀ (m : Mem) (a v i : Nat), i < n → n ≤ 2 ^ 64 →
    store m a n v ((a + i) % 2 ^ 64) = byteOfNat (v / 256 ^ i) := by
  induction n with
  | zero => intro m a v i hi; exact absurd hi (Nat.not_lt_zero i)
  | succ n ih =>
      intro m a v i hi hn
      simp only [store]
      cases i with
      | zero =>
          rw [store_frame n _ (a + 1) (v / 256) ((a + 0) % 2 ^ 64) (by intro k hk; omega)]
          simp [Mem.write_same]
      | succ i =>
          have e : a + (i + 1) = a + 1 + i := by omega
          rw [e, ih _ (a + 1) (v / 256) i (by omega) (by omega), Nat.pow_succ,
            Nat.div_div_eq_div_mul, Nat.mul_comm]

/-- A load of `k` bytes at byte `j` of a value just stored in `n ≥ j + k` bytes gives the
`k` bytes of the value from byte `j` on. -/
theorem load_store_part (n k j : Nat) (m : Mem) (a v : Nat) (hjk : j + k ≤ n)
    (hn : n ≤ 2 ^ 64) :
    load (store m a n v) ((a + j) % 2 ^ 64) k = v / 256 ^ j % 256 ^ k := by
  induction k generalizing j with
  | zero => simp [load, Nat.mod_one]
  | succ k ih =>
      simp only [load]
      rw [Nat.mod_mod, store_get n m a v j (by omega) hn]
      have h1 := ih (j + 1) (by omega)
      have e : ((a + j) % 2 ^ 64 + 1) % 2 ^ 64 = (a + (j + 1)) % 2 ^ 64 := by omega
      rw [load_mod_addr _ ((a + j) % 2 ^ 64 + 1), e, h1, Nat.pow_succ 256 j, ← Nat.div_div_eq_div_mul,
        Nat.pow_succ', Nat.mod_mul]
      rfl


theorem getUInt8_eq_byteAt (bc : Build) (buf : Buffer) (m : Mem) (o : Int) (h0 : 0 ≤ o)
    (h1 : o + 1 ≤ buf.length) : buf.GetUInt8 bc m o = .ok (buf.byteAt m o).val := by
  have hb := boundsCheck_ok_of_inRange bc o 1 buf.length (by omega) h1
  simp only [Buffer.GetUInt8, hb, load, Buffer.byteAt]
  rw [Nat.mod_eq_of_lt (unsafeAdd_lt _ o)]
  rfl

theorem halves_of_int64 (v : Int) (hv : IsInt64 v) :
    wrapInt32 ((toUnsigned 64 v / 256 ^ 0 % 256 ^ 4 : Nat) : Int) = wrapInt32 v ∧
    wrapInt32 ((toUnsigned 64 v / 256 ^ 4 % 256 ^ 4 : Nat) : Int) = v / 2 ^ 32 := by
  unfold IsInt64 at hv
  have hU : ((toUnsigned 64 v : Nat) : Int) = v ∨ ((toUnsigned 64 v : Nat) : Int) = v + 2 ^ 64 := by
    unfold toUnsigned
    omega
  have hlt : toUnsigned 64 v < 2 ^ 64 := by
    unfold toUnsigned
    omega
  generalize toUnsigned 64 v = V at *
  unfold wrapInt32
  simp only [Nat.reducePow, Int.reducePow] at *
  constructor <;> rcases hU with h | h <;> omega

/-- C17. Typed loads reinterpret the addressed bytes in little-endian order, aligned or not,
in both builds.  At an offset `o ≥ 0`: `GetUInt8(o + i)` is the buffer's byte `o + i`
whenever it is in range; with `o + 2 ≤ capacity`,
`GetUInt16(o) = GetUInt8(o) + 256 * GetUInt8(o + 1)`; with `o + 4 ≤ capacity`, `GetInt32(o)`
is the `int32` whose bit pattern is the sum over `i < 4` of byte `o + i` times `256 ^ i`;
with `o + 8 ≤ capacity`, `GetInt64(o)` likewise over `i < 8`; and after `PutInt64(o, v)` of
an `int64` `v`, `GetInt32(o)` is the low 32 bits of `v` and `GetInt32(o + 4)` the high 32
bits. -/
theorem typed_loads_little_endian (bc : Build) (buf : Buffer) (m : Mem) (o v : Int)
    (ho : 0 ≤ o) :
    (∀ i : Nat, o + i + 1 ≤ buf.length →
      buf.GetUInt8 bc m (o + i) = .ok (buf.byteAt m (o + i)).val) ∧
    (o + 2 ≤ buf.length →
      buf.GetUInt16 bc m o =
        (buf.GetUInt8 bc m o).bind (fun b0 =>
          (buf.GetUInt8 bc m (o + 1)).map (fun b1 => b0 + 256 * b1))) ∧
    (o + 4 ≤ buf.length →
      buf.GetInt32 bc m o = .ok (wrapInt32 ((Finset.sum (Finset.range 4)
        (fun i => (buf.byteAt m (o + (i : Int))).val * 256 ^ i) : Nat) : Int))) ∧
    (o + 8 ≤ buf.length →
      buf.GetInt64 bc m o = .ok (wrapInt64 ((Finset.sum (Finset.range 8)
        (fun i => (buf.byteAt m (o + (i : Int))).val * 256 ^ i) : Nat) : Int))) ∧
    (o + 8 ≤ buf.length → IsInt64 v →
      (buf.PutInt64 bc m o v).bind (fun m' => buf.GetInt32 bc m' o) = .ok (wrapInt32 v) ∧
      (buf.PutInt64 bc m o v).bind (fun m' => buf.GetInt32 bc m' (o + 4)) =
        .ok (v / 2 ^ 32)) := by
  refine ⟨?_, ?_, ?_, ?_, ?_⟩
  · intro i hi
    exact getUInt8_eq_byteAt bc buf m (o + i) (by omega) (by omega)
  · intro hc
    have hb := boundsCheck_ok_of_inRange bc o 2 buf.length (by omega) hc
    rw [getUInt8_eq_byteAt bc buf m o ho (by omega),
      getUInt8_eq_byteAt bc buf m (o + 1) (by omega) (by omega)]
    simp only [Buffer.GetUInt16, hb, Except.bind, Except.map, load_eq_sum_byteAt,
      Finset.sum_range_succ, Finset.sum_range_zero]
    refine congrArg Except.ok ?_
    simp only [Nat.cast_zero, Nat.cast_one, Int.add_zero]
    omega
  · intro hc
    have hb := boundsCheck_ok_of_inRange bc o 4 buf.length (by omega) hc
    simp only [Buffer.GetInt32, hb, load_eq_sum_byteAt]
  · intro hc
    have hb := boundsCheck_ok_of_inRange bc o 8 buf.length (by omega) hc
    simp only [Buffer.GetInt64, hb, load_eq_sum_byteAt]
  · intro hc hv
    have hb8 := boundsCheck_ok_of_inRange bc o 8 buf.length (by omega) hc
    have hb4 := boundsCheck_ok_of_inRange bc o 4 buf.length (by omega) (by omega)
    have hb4' := boundsCheck_ok_of_inRange bc (o + 4) 4 buf.length (by omega) (by omega)
    have hh := halves_of_int64 v hv
    have e0 : unsafeAdd buf.bufferPtr o = (unsafeAdd buf.bufferPtr o + 0) % 2 ^ 64 := by
      have := unsafeAdd_lt buf.bufferPtr o
      omega
    have e4 : unsafeAdd buf.bufferPtr (o + 4) = (unsafeAdd buf.bufferPtr o + 4) % 2 ^ 64 := by
      rw [unsafeAdd_add]
      rfl
    simp only [Buffer.PutInt64, Buffer.GetInt32, hb8, hb4, hb4', Except.bind]
    constructor
    · refine congrArg Except.ok ?_
      have hp := load_store_part 8 4 0 m (unsafeAdd buf.bufferPtr o) (toUnsigned 64 v)
        (by decide) (by decide)
      rw [← e0] at hp
      rw [hp]
      exact hh.1
    · refine congrArg Except.ok ?_
      have hp := load_store_part 8 4 4 m (unsafeAdd buf.bufferPtr o) (toUnsigned 64 v)
        (by decide) (by decide)
      rw [← e4] at hp
      rw [hp]
      exact hh.2


/-- Witness for C17: a 16-byte buffer holding 1, ..., 9 from its base on, read at the odd
offset 1; and a `PutInt64` of `-2`, whose low half is `-2` and whose high half is `-1`. -/
theorem typed_loads_little_endian_witness :
    (Buffer.mk 4096 16).GetUInt8 .debug
        (writeList (fun _ => 0) 4096 [1, 2, 3, 4, 5, 6, 7, 8, 9]) (1 + ((2 : Nat) : Int)) =
      .ok 4 ∧
    (Buffer.mk 4096 16).GetUInt16 .debug
        (writeList (fun _ => 0) 4096 [1, 2, 3, 4, 5, 6, 7, 8, 9]) 1 = .ok 770 ∧
    (Buffer.mk 4096 16).GetInt32 .debug
        (writeList (fun _ => 0) 4096 [1, 2, 3, 4, 5, 6, 7, 8, 9]) 1 =
      .ok (wrapInt32 ((Finset.sum (Finset.range 4) (fun i =>
        ((Buffer.mk 4096 16).byteAt (writeList (fun _ => 0) 4096 [1, 2, 3, 4, 5, 6, 7, 8, 9])
          (1 + (i : Int))).val * 256 ^ i) : Nat) : Int)) ∧
    (Buffer.mk 4096 16).GetInt64 .debug
        (writeList (fun _ => 0) 4096 [1, 2, 3, 4, 5, 6, 7, 8, 9]) 1 =
      .ok (wrapInt64 ((Finset.sum (Finset.range 8) (fun i =>
        ((Buffer.mk 4096 16).byteAt (writeList (fun _ => 0) 4096 [1, 2, 3, 4, 5, 6, 7, 8, 9])
          (1 + (i : Int))).val * 256 ^ i) : Nat) : Int)) ∧
    ((Buffer.mk 4096 16).PutInt64 .debug
        (writeList (fun _ => 0) 4096 [1, 2, 3, 4, 5, 6, 7, 8, 9]) 1 (-2)).bind
      (fun m' => (Buffer.mk 4096 16).GetInt32 .debug m' 1) = .ok (-2) ∧
    ((Buffer.mk 4096 16).PutInt64 .debug
        (writeList (fun _ => 0) 4096 [1, 2, 3, 4, 5, 6, 7, 8, 9]) 1 (-2)).bind
      (fun m' => (Buffer.mk 4096 16).GetInt32 .debug m' (1 + 4)) = .ok (-1) :=
  have h := typed_loads_little_endian .debug (Buffer.mk 4096 16)
    (writeList (fun _ => 0) 4096 [1, 2, 3, 4, 5, 6, 7, 8, 9]) 1 (-2) (by decide)
  have h5 := h.2.2.2.2 (by decide) (by decide)
  ⟨h.1 2 (by decide), h.2.1 (by decide), h.2.2.1 (by decide), h.2.2.2.1 (by decide),
   h5.1, h5.2⟩

/-! ## Frame of the typed stores -/

/-- C18. Frame condition of the typed stores, in both builds: at an `int32` offset `o` with
`o + W ≤ capacity`, after `PutUInt8`, `PutInt8` (`W = 1`), `PutUInt16` (`W = 2`), `PutInt32`,
`PutInt32Ordered`, `PutIntOrdered`, `CompareAndSetInt32` (`W = 4`), `PutInt64`,
`PutInt64Ordered`, `GetAndAddInt64`, `CompareAndSetInt64` (`W = 8`) the buffer's byte at
every `int32` position `j` outside `[o, o + W)` is what it was before the call.  The
operations take the buffer value (base, capacity) as an input only, and the `Get`
operations have no memory output, the source assigning neither. -/
theorem typed_stores_frame (bc : Build) (buf : Buffer) (m : Mem) (o j : Int) (v : Nat)
    (x e u : Int) (ho : IsInt32 o) (hj : IsInt32 j) :
    (o + 1 ≤ buf.length → j < o ∨ o + 1 ≤ j →
      (buf.PutUInt8 bc m o v).map (fun m' => buf.byteAt m' j) = .ok (buf.byteAt m j) ∧
      (buf.PutInt8 bc m o x).map (fun m' => buf.byteAt m' j) = .ok (buf.byteAt m j)) ∧
    (o + 2 ≤ buf.length → j < o ∨ o + 2 ≤ j →
      (buf.PutUInt16 bc m o v).map (fun m' => buf.byteAt m' j) = .ok (buf.byteAt m j)) ∧
    (o + 4 ≤ buf.length → j < o ∨ o + 4 ≤ j →
      (buf.PutInt32 bc m o x).map (fun m' => buf.byteAt m' j) = .ok (buf.byteAt m j) ∧
      (buf.PutInt32Ordered bc m o x).map (fun m' => buf.byteAt m' j) =
        .ok (buf.byteAt m j) ∧
      (buf.PutIntOrdered bc m o x).map (fun m' => buf.byteAt m' j) =
        .ok (buf.byteAt m j) ∧
      (buf.CompareAndSetInt32 bc m o e u).map (fun r => buf.byteAt r.2 j) =
        .ok (buf.byteAt m j)) ∧
    (o + 8 ≤ buf.length → j < o ∨ o + 8 ≤ j →
      (buf.PutInt64 bc m o x).map (fun m' => buf.byteAt m' j) = .ok (buf.byteAt m j) ∧
      (buf.PutInt64Ordered bc m o x).map (fun m' => buf.byteAt m' j) =
        .ok (buf.byteAt m j) ∧
      (buf.GetAndAddInt64 bc m o x).map (fun r => buf.byteAt r.2 j) =
        .ok (buf.byteAt m j) ∧
      (buf.CompareAndSetInt64 bc m o e u).map (fun r => buf.byteAt r.2 j) =
        .ok (buf.byteAt m j)) := by
  have hlo : -2 ^ 31 ≤ o := ho.1
  refine ⟨?_, ?_, ?_, ?_⟩
  · intro hc hout
    have hb := boundsCheck_ok_of_inRange bc o 1 buf.length (by omega) hc
    have hf := fun w => byteAt_store_outside buf m o j 1 w ho hj (by decide)
      (by simpa using hout)
    simp only [Buffer.PutUInt8, Buffer.PutInt8, hb, Except.map, hf, and_self]
  · intro hc hout
    have hb := boundsCheck_ok_of_inRange bc o 2 buf.length (by omega) hc
    have hf := fun w => byteAt_store_outside buf m o j 2 w ho hj (by decide)
      (by simpa using hout)
    simp only [Buffer.PutUInt16, hb, Except.map, hf]
  · intro hc hout
    have hb := boundsCheck_ok_of_inRange bc o 4 buf.length (by omega) hc
    have hf := fun w => byteAt_store_outside buf m o j 4 w ho hj (by decide)
      (by simpa using hout)
    simp only [Buffer.PutInt32, Buffer.PutInt32Ordered, Buffer.PutIntOrdered,
      Buffer.CompareAndSetInt32, atomicCompareAndSwapInt32, hb, Except.map, hf, true_and]
    split <;> simp only [hf]
  · intro hc hout
    have hb := boundsCheck_ok_of_inRange bc o 8 buf.length (by omega) hc
    have hf := fun w => byteAt_store_outside buf m o j 8 w ho hj (by decide)
      (by simpa using hout)
    simp only [Buffer.PutInt64, Buffer.PutInt64Ordered, Buffer.GetAndAddInt64,
      Buffer.CompareAndSetInt64, atomicCompareAndSwapInt64, atomicAddUint64, hb, Except.map,
      hf, true_and]
    split <;> simp only [hf]


/-- Witness for C18: a 16-byte buffer of sevens, stores at offset 4, byte 3 observed. -/
theorem typed_stores_frame_witness :
    (((Buffer.mk 4096 16).PutUInt8 .debug (fun _ => 7) 4 200).map
        (fun m' => (Buffer.mk 4096 16).byteAt m' 3) = .ok 7 ∧
      ((Buffer.mk 4096 16).PutInt8 .debug (fun _ => 7) 4 (-1)).map
        (fun m' => (Buffer.mk 4096 16).byteAt m' 3) = .ok 7) ∧
    ((Buffer.mk 4096 16).PutUInt16 .debug (fun _ => 7) 4 200).map
        (fun m' => (Buffer.mk 4096 16).byteAt m' 3) = .ok 7 ∧
    (((Buffer.mk 4096 16).PutInt32 .debug (fun _ => 7) 4 (-1)).map
        (fun m' => (Buffer.mk 4096 16).byteAt m' 3) = .ok 7 ∧
      ((Buffer.mk 4096 16).CompareAndSetInt32 .debug (fun _ => 7) 4 117901063 1).map
        (fun r => (Buffer.mk 4096 16).byteAt r.2 3) = .ok 7) ∧
    (((Buffer.mk 4096 16).PutInt64 .debug (fun _ => 7) 4 (-1)).map
        (fun m' => (Buffer.mk 4096 16).byteAt m' 3) = .ok 7 ∧
      ((Buffer.mk 4096 16).GetAndAddInt64 .debug (fun _ => 7) 4 (-1)).map
        (fun r => (Buffer.mk 4096 16).byteAt r.2 3) = .ok 7) :=
  have h := typed_stores_frame .debug (Buffer.mk 4096 16) (fun _ => 7) 4 3 200 (-1)
    117901063 1 (by decide) (by decide)
  have h1 := h.1 (by decide) (by decide)
  have h2 := h.2.1 (by decide) (by decide)
  have h4 := h.2.2.1 (by decide) (by decide)
  have h8 := h.2.2.2 (by decide) (by decide)
  ⟨h1, h2, ⟨h4.1, h4.2.2.2⟩, ⟨h8.1, h8.2.2.1⟩⟩

/-! ## Hex dump -/

/-- C20 (the code at the failing input). `MemPrint` reads each byte as an `int8`: the byte
`0xff` is rendered `-1`, not `ff`, and the byte `0x80` is rendered `-80`, so that a range of
one byte gives four characters, not three; `Print` renders the byte `0xff` as `ff`.  Bytes
below `0x80` are rendered alike by both. -/
theorem memPrint_renders_high_bytes_signed :
    MemPrint (fun _ => 255) 4096 1 = "-1 " ∧
    MemPrint (fun _ => 128) 4096 1 = "-80 " ∧
    (MemPrint (fun _ => 128) 4096 1).length = 4 ∧
    Print (fun _ => 255) (Slice.mk 4096 1) = "ff \n" ∧
    MemPrint (fun _ => 10) 4096 2 = "0a 0a " ∧
    Print (fun _ => 10) (Slice.mk 4096 2) = "0a 0a \n" := by
  decide

end Aeron
